import Mathlib

/-!
# Verification of the imagescraper crawl frontier and extraction engine

This file is a shallow embedding, in Lean 4, of the core of the
`theimpactlab/imagescraper` repository: the URL normalizer, the link and
image extractor, the crawl scheduler state (visited set, pending queue,
image registry, counters, log), the queue loop-suppression monitor, and
the YouTube-thumbnail fallback chain of the image proxy route.

Modelling conventions:

* JavaScript strings (UTF-16 code unit sequences) are modelled as
  `List Nat` of code points; the sources under test only manipulate
  ASCII in the relevant paths.  `str` converts a Lean string literal.
* The browser's WHATWG `new URL(..)` parser is a platform black box; it
  is modelled here for hierarchical `scheme://host/path?query#fragment`
  URLs: scheme and host are lower-cased, the fragment is dropped, an
  empty path reads back as "/".  Port elision, percent-encoding,
  dot-segment removal and non-hierarchical schemes (`mailto:`) are
  outside the modelled fragment; no claim exercises them.
* React state and refs that the crawl loop keeps in lock-step
  (`visitedUrlsRef`/`visitedUrls`, `urlQueueRef`/`urlQueue`,
  `pagesVisitedRef`/`currentStats.pagesVisited`) are modelled as a
  single field each; the effect that re-zeroes the refs once `loading`
  turns false is bookkeeping for the next session (`startCrawling`
  resets them again) and is not modelled.
* `async`/`await` interleaving is modelled by splitting `crawlPage` at
  its unique fetch point into `crawlPagePre` (everything before the
  response arrives) and `crawlPagePost` (everything after); the page
  fetch itself is an oracle argument of type `FetchPage`.
* The append-only log keeps only each entry's severity (the claims only
  inspect severities); `addLog` prepends and truncates to 100 entries
  exactly as the source does.
-/

namespace ImageScraper

/-- Convert a Lean string literal to the `List Nat` of its code points,
the representation used for JavaScript strings throughout this file. -/
def str (s : String) : List Nat := s.data.map Char.toNat

/-- ASCII lower-casing of one code point, the fragment of JavaScript
`toLowerCase` exercised by the sources (ASCII URLs). -/
def lowerChar (c : Nat) : Nat := if 65 ≤ c ∧ c ≤ 90 then c + 32 else c

/-- Lower-case a modelled string (JavaScript `toLowerCase`). -/
def lowerStr (s : List Nat) : List Nat := s.map lowerChar

/-- `startsWithL p s` models JavaScript `s.startsWith(p)`. -/
def startsWithL : List Nat → List Nat → Bool
  | [], _ => true
  | _ :: _, [] => false
  | p :: ps, c :: cs => p == c && startsWithL ps cs

/-- `splitOn d s` models JavaScript `s.split(d)` for a one-character
separator `d`: the list of (possibly empty) chunks between occurrences
of `d`.  Always returns a nonempty list. -/
def splitOn (d : Nat) : List Nat → List (List Nat)
  | [] => [[]]
  | c :: cs =>
    match splitOn d cs with
    | [] => [[]]
    | h :: t => if c == d then [] :: h :: t else (c :: h) :: t

/-- Code point is not a colon (used to delimit the scheme). -/
def notColon (c : Nat) : Bool := c != 58

/-- Code point terminates the host part: `/`, `?` or `#`. -/
def isHostDelim (c : Nat) : Bool := c == 47 || c == 63 || c == 35

/-- Code point does not terminate the host part. -/
def notHostDelim (c : Nat) : Bool := !(isHostDelim c)

/-- Code point is neither `?` nor `#` (stays inside the path). -/
def notQH (c : Nat) : Bool := c != 63 && c != 35

/-- Code point is not `#`. -/
def notHash (c : Nat) : Bool := c != 35

/-- ASCII letter (the scheme alphabet of the modelled parser). -/
def isAlphaCode (c : Nat) : Bool := (65 ≤ c && c ≤ 90) || (97 ≤ c && c ≤ 122)

/-- The components a parsed URL exposes to the sources: `origin` is
`scheme ++ "://" ++ host`, `path` is the pathname and `search` is the
query string (empty, or starting with `?`).  Fragments are dropped at
parse time, as `new URL` drops them from these four accessors. -/
structure URLRec where
  scheme : List Nat
  host : List Nat
  path : List Nat
  search : List Nat
deriving DecidableEq

/-- Split a `path?query#fragment` tail into the `(pathname, search)`
pair exposed by `new URL`: the pathname stops at `?` or `#`, the search
runs from `?` to `#` and is empty when the query is empty. -/
def pathQOf (s : List Nat) : List Nat × List Nat :=
  let pathRaw := s.takeWhile notQH
  let afterPath := s.dropWhile notQH
  let search :=
    match afterPath with
    | 63 :: t =>
      let q := t.takeWhile notHash
      if q = [] then [] else 63 :: q
    | _ => []
  (pathRaw, search)

/-- Model of `new URL(s)` on an absolute hierarchical URL
`scheme://host/path?query#fragment`: lower-cases scheme and host,
reads an empty path back as `/`, drops the fragment; fails (`none`,
i.e. the JavaScript constructor throwing) when the `scheme://host`
shape is absent or the host is empty. -/
def parseAbs (s : List Nat) : Option URLRec :=
  let sch := s.takeWhile notColon
  match s.dropWhile notColon with
  | 58 :: 47 :: 47 :: after =>
    if sch ≠ [] ∧ sch.all isAlphaCode then
      let hostRaw := after.takeWhile notHostDelim
      if hostRaw = [] then none
      else
        let hp := after.dropWhile notHostDelim
        let pq := pathQOf hp
        some ⟨lowerStr sch, lowerStr hostRaw,
              (if pq.1 = [] then [47] else pq.1), pq.2⟩
    else none
  | _ => none

/-- `true` when the string parses as an absolute hierarchical URL
(an all-letter scheme followed by `://`); used to decide whether
`new URL(input, base)` ignores its base. -/
def looksAbsolute (s : List Nat) : Bool :=
  let sch := s.takeWhile notColon
  decide (sch ≠ []) && sch.all isAlphaCode &&
    startsWithL [58, 47, 47] (s.dropWhile notColon)

/-- The directory part of a pathname: everything up to and including the
last `/` (used by relative-reference resolution). -/
def dirOf : List Nat → List Nat
  | [] => []
  | c :: cs => if 47 ∈ cs then c :: dirOf cs else if c = 47 then [47] else []

/-- Model of `new URL(input, base)`: an absolute input ignores the base;
otherwise the base must parse, and the input is resolved against it as a
root-relative path, a query-only reference, a fragment-only reference,
or a relative path merged onto the base's directory.  (Dot segments are
not removed: outside the modelled fragment.) -/
def parseRel (input base : List Nat) : Option URLRec :=
  if looksAbsolute input then parseAbs input
  else
    match parseAbs base with
    | none => none
    | some b =>
      match input with
      | [] => some b
      | 47 :: _ =>
        let pq := pathQOf input
        some ⟨b.scheme, b.host, (if pq.1 = [] then [47] else pq.1), pq.2⟩
      | 63 :: _ =>
        let pq := pathQOf input
        some ⟨b.scheme, b.host, b.path, pq.2⟩
      | 35 :: _ => some b
      | _ =>
        let pq := pathQOf input
        some ⟨b.scheme, b.host, dirOf b.path ++ pq.1, pq.2⟩

/-- JavaScript `pathname.replace(/\/$/, "")`: strips exactly one
trailing slash if present. -/
def stripTrailingSlash (p : List Nat) : List Nat :=
  if p.getLast? = some 47 then p.dropLast else p

/-- `url.origin + url.pathname.replace(/\/$/, "").toLowerCase() +
(url.search || "")` — the canonical-key serialization every branch of
`normalizeUrl` returns. -/
def serializeKey (u : URLRec) : List Nat :=
  u.scheme ++ [58, 47, 47] ++ u.host ++ lowerStr (stripTrailingSlash u.path) ++ u.search

/-- The string "http". -/
def strHttp : List Nat := str ("http")

/-- Model of `normalizeUrl(inputUrl, baseUrl)`
(src/components/image-downloader.tsx:903-926): absolute inputs
(string-prefix test `startsWith("http")`), protocol-relative inputs
(`//...`, completed with the base's protocol) and relative inputs are
parsed and serialized to origin + lower-cased path with one trailing
slash stripped + search; any parse failure yields the empty-string
sentinel `[]`. -/
def normalizeUrl (input base : List Nat) : List Nat :=
  if startsWithL strHttp input then
    match parseAbs input with
    | some u => serializeKey u
    | none => []
  else if startsWithL [47, 47] input then
    match parseAbs base with
    | some b =>
      match parseAbs (b.scheme ++ [58] ++ input) with
      | some u => serializeKey u
      | none => []
    | none => []
  else
    match parseRel input base with
    | some u => serializeKey u
    | none => []

/-- Model of `isSameDomain(urlA, urlB)`
(src/components/image-downloader.tsx:928-936): parses both URLs and
compares their hostnames (host up to any `:`); any parse failure yields
`false`. -/
def isSameDomain (a b : List Nat) : Bool :=
  match parseAbs a, parseAbs b with
  | some ua, some ub => ua.host.takeWhile notColon = ub.host.takeWhile notColon
  | _, _ => false

/-- Model of `isValidUrl(urlString)`
(src/components/image-downloader.tsx:894-901). -/
def isValidUrl (s : List Nat) : Bool := (parseAbs s).isSome

/-- The seven values of the `getImageType` classification. -/
inductive ImageType where
  | jpeg | png | gif | svg | webp | avif | unknown
deriving DecidableEq

/-- `endsWithL suf s` models JavaScript `s.endsWith(suf)`. -/
def endsWithL (suf s : List Nat) : Bool := List.isSuffixOf suf s

/-- Model of `getImageType(url)`
(src/components/image-downloader.tsx:938-951): lower-cases the parsed
pathname and classifies by extension suffix; a parse failure is caught
and classified `unknown`. -/
def getImageType (url : List Nat) : ImageType :=
  match parseAbs url with
  | none => .unknown
  | some u =>
    let p := lowerStr u.path
    if endsWithL (str (".jpg")) p || endsWithL (str (".jpeg")) p then .jpeg
    else if endsWithL (str (".png")) p then .png
    else if endsWithL (str (".gif")) p then .gif
    else if endsWithL (str (".svg")) p then .svg
    else if endsWithL (str (".webp")) p then .webp
    else if endsWithL (str (".avif")) p then .avif
    else .unknown

/-- The crawl settings read by the engine (`CrawlSettings` interface,
src/components/image-downloader.tsx:805-812); fixed for one session
(the settings dialog is disabled while a crawl runs). -/
structure CrawlSettings where
  maxDepth : Nat
  maxPages : Nat
  includeExternalDomains : Bool
  delayBetweenRequests : Nat
  includeSvgImages : Bool
  maxRetries : Nat
deriving DecidableEq

/-- One record of the image registry (`ImageItem` interface,
src/components/image-downloader.tsx:792-803).  `width`/`height` are the
element attributes after `Number.parseInt(attr || "0", 10) || undefined`
(so `none` stands for a missing, unparseable or zero attribute). -/
structure ImageItem where
  url : List Nat
  filename : List Nat
  selected : Bool
  sourceUrl : List Nat
  width : Option Nat
  height : Option Nat
  type : ImageType
  loadFailed : Bool
  retryCount : Nat
deriving DecidableEq

/-- One `<img>` element as seen through the black-box DOM parser:
its `src` attribute (`[]` for missing or empty) and its `width` and
`height` attributes after integer parsing (`none` for missing or
unparseable). -/
structure ImgTag where
  src : List Nat
  width : Option Nat
  height : Option Nat
deriving DecidableEq

/-- One page's markup as seen through the black-box DOM parser
(`DOMParser.parseFromString` + `querySelectorAll`): the `href`
attributes of its anchor elements (`[]` for missing or empty) and its
`<img>` elements, in document order. -/
structure Page where
  anchors : List (List Nat)
  imgs : List ImgTag
deriving DecidableEq

/-- The skip condition of `extractLinks`: an href that is a fragment
anchor, a `javascript:`, `mailto:` or `tel:` reference, or exactly the
string `/`. -/
def bannedHref (href : List Nat) : Bool :=
  startsWithL (str ("#")) href || startsWithL (str ("javascript:")) href
    || startsWithL (str ("mailto:")) href || startsWithL (str ("tel:")) href
    || href = str ("/")

/-- One step of the `linkElements.forEach` loop of `extractLinks`:
the accumulator carries the collected `links` list and the `seenUrls`
set (as an insertion-ordered list). -/
def linkStep (cfg : CrawlSettings) (baseUrl : List Nat)
    (acc : List (List Nat) × List (List Nat)) (href : List Nat) :
    List (List Nat) × List (List Nat) :=
  if href = [] then acc
  else if bannedHref href then acc
  else
    let n := normalizeUrl href baseUrl
    if n = [] ∨ n ∈ acc.2 then acc
    else
      let seen := acc.2 ++ [n]
      if (cfg.includeExternalDomains = false ∧ isSameDomain n baseUrl = true)
          ∨ cfg.includeExternalDomains = true then
        (acc.1 ++ [n], seen)
      else (acc.1, seen)

/-- Model of `extractLinks(html, baseUrl)`
(src/components/image-downloader.tsx:962-1003): drops empty,
fragment-only, `javascript:`/`mailto:`/`tel:` and exactly-`/` hrefs,
normalizes the survivors against the page URL, collapses duplicates via
the `seenUrls` set, and applies the external-domain filter. -/
def extractLinks (cfg : CrawlSettings) (page : Page) (baseUrl : List Nat) :
    List (List Nat) :=
  (page.anchors.foldl (linkStep cfg baseUrl) ([], [])).1

/-- JavaScript `pageUrl.replace(/[^a-zA-Z0-9]/g, "-")`, used for
synthetic filenames. -/
def sanitizeCode (c : Nat) : Nat :=
  if (48 ≤ c ∧ c ≤ 57) ∨ (65 ≤ c ∧ c ≤ 90) ∨ (97 ≤ c ∧ c ≤ 122) then c else 45

/-- Decimal digits of `n` as code points (JavaScript number-to-string
in a template literal). -/
def natDigits (n : Nat) : List Nat := (Nat.toDigits 10 n).map Char.toNat

/-- The synthetic filename `image-${pageUrl.replace(..)}-${index+1}.jpg`
generated when the last path segment has no dot. -/
def syntheticFilename (pageUrl : List Nat) (index : Nat) : List Nat :=
  str ("image-") ++ pageUrl.map sanitizeCode ++ str ("-") ++ natDigits (index + 1)
    ++ str (".jpg")

/-- The body of one `imgElements.forEach` iteration of
`extractImagesFromHtml`: zero or one `ImageItem` for the `index`-th
`<img>` tag. -/
def buildImage (cfg : CrawlSettings) (pageUrl : List Nat) (index : Nat)
    (tag : ImgTag) : List ImageItem :=
  if tag.src = [] ∨ startsWithL (str ("data:")) tag.src then []
  else
    let u := normalizeUrl tag.src pageUrl
    if u = [] then []
    else
      let ty := getImageType u
      if ty = .svg ∧ cfg.includeSvgImages = false then []
      else
        let parts := splitOn 47 u
        let lastPart := parts.getLastD []
        let fname0 := (splitOn 63 lastPart).headD []
        let fname := if 46 ∈ fname0 then fname0 else syntheticFilename pageUrl index
        let w := match tag.width with | some 0 => none | x => x
        let h := match tag.height with | some 0 => none | x => x
        [{ url := u, filename := fname, selected := true, sourceUrl := pageUrl,
           width := w, height := h, type := ty, loadFailed := false,
           retryCount := 0 }]

/-- Model of `extractImagesFromHtml(html, pageUrl)`
(src/components/image-downloader.tsx:1005-1060): skips empty and
`data:` srcs, normalizes against the page URL, classifies the type,
drops SVGs when `includeSvgImages` is off, derives the filename from the
last path segment (with a synthetic fallback), and reads nonzero
width/height attributes.  Note: no within-page deduplication. -/
def extractImagesFromHtml (cfg : CrawlSettings) (page : Page)
    (pageUrl : List Nat) : List ImageItem :=
  (page.imgs.foldl
    (fun acc tag => (acc.1 ++ buildImage cfg pageUrl acc.2 tag, acc.2 + 1))
    ([], 0)).1

/-- Severity of a log entry (`CrawlLog.type`); the claims only inspect
severities, so messages are not modelled. -/
inductive LogType where
  | info | error | success | warning
deriving DecidableEq

/-- Model of `addLog` (src/components/image-downloader.tsx:887-892):
prepend the new entry and keep only the last 100. -/
def pushLog (t : LogType) (l : List LogType) : List LogType := (t :: l).take 100

/-- Outcome of one page fetch through the `/api/proxy` collaborator:
a 2xx response whose parsed body is `page`, a non-2xx response, or a
thrown transport error. -/
inductive FetchPage where
  | ok (page : Page)
  | notOk
  | err
deriving DecidableEq

/-- The mutable session state of one crawl, gathering the React state
and refs the engine keeps in lock-step: `loading` (running flag),
`visited` (the visited-URL set, in insertion order), `queue` (the
pending FIFO queue), `images` (the image registry), the `pagesVisited`
and `imagesFound` counters, `maxDepthReached`
(`currentStats.currentDepth`), the severity log, the
`isProcessingRef` re-entrancy flag, and a ghost trace `fetched` of
every page URL actually handed to the fetch collaborator. -/
structure CrawlState where
  loading : Bool
  visited : List (List Nat)
  queue : List (List Nat)
  images : List ImageItem
  pagesVisited : Nat
  imagesFound : Nat
  maxDepthReached : Nat
  logs : List LogType
  isProcessing : Bool
  fetched : List (List Nat)
deriving DecidableEq

/-- The `setImages` updater of `crawlPage`
(src/components/image-downloader.tsx:1136-1151): filter the candidates
against the URLs already in the registry, append the survivors, bump
`imagesFound`, and log a success when anything new was added. -/
def registerImages (st : CrawlState) (cand : List ImageItem) : CrawlState :=
  let existing := st.images.map (fun i => i.url)
  let uniqueNew := cand.filter (fun i => i.url ∉ existing)
  { st with images := st.images ++ uniqueNew,
            imagesFound := st.imagesFound + uniqueNew.length,
            logs := if uniqueNew = [] then st.logs else pushLog .success st.logs }

/-- The first half of `crawlPage(pageUrl, depth)`
(src/components/image-downloader.tsx:1064-1119), up to the `await
fetch`: the invalid-URL, max-pages, already-visited, depth and loading
guards, then marking visited, bumping `pagesVisited` and
`currentDepth`, and issuing the fetch (recorded in `fetched`).  The
second component is `true` iff control reaches the fetch. -/
def crawlPagePre (cfg : CrawlSettings) (st : CrawlState) (pageUrl : List Nat)
    (depth : Nat) : CrawlState × Bool :=
  let npu := normalizeUrl pageUrl pageUrl
  if npu = [] then ({ st with logs := pushLog .warning st.logs }, false)
  else if cfg.maxPages ≤ st.pagesVisited then
    ({ st with logs := pushLog .warning st.logs, loading := false }, false)
  else if npu ∈ st.visited then ({ st with logs := pushLog .info st.logs }, false)
  else if cfg.maxDepth < depth ∨ st.loading = false then (st, false)
  else
    ({ st with visited := st.visited ++ [npu],
               pagesVisited := st.pagesVisited + 1,
               maxDepthReached := max st.maxDepthReached depth,
               logs := pushLog .info st.logs,
               fetched := st.fetched ++ [pageUrl] }, true)

/-- The second half of `crawlPage(pageUrl, depth)`
(src/components/image-downloader.tsx:1121-1195), from the fetch
response on: error logging for non-2xx or thrown fetches; on success,
image extraction and registration, the at-max-depth and max-pages
early returns, and link extraction with the visited/pending filter
before appending to the queue.  (The final `delay` only paces the
loop.)  Note that none of this re-checks `loading`. -/
def crawlPagePost (cfg : CrawlSettings) (st : CrawlState) (pageUrl : List Nat)
    (depth : Nat) (res : FetchPage) : CrawlState :=
  match res with
  | .notOk => { st with logs := pushLog .error st.logs }
  | .err => { st with logs := pushLog .error st.logs }
  | .ok page =>
    let st1 := { st with logs := pushLog .info (pushLog .success st.logs) }
    let st2 := registerImages st1 (extractImagesFromHtml cfg page pageUrl)
    if cfg.maxDepth ≤ depth then { st2 with logs := pushLog .info st2.logs }
    else if cfg.maxPages ≤ st2.pagesVisited then
      { st2 with logs := pushLog .warning st2.logs }
    else
      let links := extractLinks cfg page pageUrl
      let newLinks := links.filter (fun link =>
        let n := normalizeUrl link pageUrl
        n ≠ [] ∧ n ∉ st2.visited ∧ n ∉ st2.queue)
      { st2 with queue := st2.queue ++ newLinks,
                 logs := pushLog .info (pushLog .info st2.logs) }

/-- `crawlPage` run to completion without interleaving: the pre half,
then — when the fetch was issued — the post half on the response. -/
def crawlPage (cfg : CrawlSettings) (st : CrawlState) (pageUrl : List Nat)
    (depth : Nat) (res : FetchPage) : CrawlState :=
  let p := crawlPagePre cfg st pageUrl depth
  if p.2 then crawlPagePost cfg p.1 pageUrl depth res else p.1

/-- `pathname.split("/").filter(Boolean).length`: the number of
nonempty path segments. -/
def countSegments (path : List Nat) : Nat :=
  ((splitOn 47 path).filter (fun seg => seg ≠ [])).length

/-- The ad hoc depth recomputation of `processQueue`
(src/components/image-downloader.tsx:1244-1251):
`Math.max(1, nextPath.length - basePath.length + 1)` over the
path-segment counts of the session's raw seed URL and the dequeued URL;
`none` models `new URL` throwing (caught by the surrounding `try`). -/
def computeDepth (seed next : List Nat) : Option Nat :=
  match parseAbs seed, parseAbs next with
  | some b, some n => some (max 1 (countSegments n.path + 1 - countSegments b.path))
  | _, _ => none

/-- One invocation of `processQueue`
(src/components/image-downloader.tsx:1198-1269): the max-pages stop,
the re-entrancy/loading/empty-queue guard, dequeuing the head, the
already-visited skip, the depth recomputation (whose parse failure is
caught as a queue-processing error), and one full `crawlPage`; the
re-scheduling timeout then clears `isProcessing`. -/
def processQueueStep (cfg : CrawlSettings) (seed : List Nat) (st : CrawlState)
    (res : FetchPage) : CrawlState :=
  if cfg.maxPages ≤ st.pagesVisited then
    { st with logs := pushLog .warning st.logs, loading := false }
  else if st.isProcessing = true ∨ st.loading = false ∨ st.queue = [] then st
  else
    match st.queue with
    | [] => st
    | nextUrl :: rest =>
      let st1 := { st with isProcessing := true, queue := rest,
                           logs := pushLog .info st.logs }
      if normalizeUrl nextUrl nextUrl ∈ st1.visited then
        { st1 with logs := pushLog .info st1.logs, isProcessing := false }
      else
        match computeDepth seed nextUrl with
        | none => { st1 with logs := pushLog .error st1.logs,
                             isProcessing := false }
        | some depth =>
          let st2 := crawlPage cfg st1 nextUrl depth res
          { st2 with isProcessing := false }

/-- Helper for `dedupF`: drop the elements already `seen`. -/
def dedupFAux {α : Type} [DecidableEq α] (seen : List α) : List α → List α
  | [] => []
  | a :: l => if a ∈ seen then dedupFAux seen l else a :: dedupFAux (a :: seen) l

/-- `Array.from(new Set(xs))`: the distinct elements of `xs`, keeping
the first occurrence of each (JavaScript `Set` iterates in insertion
order). -/
def dedupF {α : Type} [DecidableEq α] (l : List α) : List α := dedupFAux [] l

/-- The queue-monitor effect (src/components/image-downloader.tsx:
1278-1303), run whenever `loading` holds and the queue is nonempty:
if the queue exceeds 10 entries and fewer than half are unique, it is
trimmed to its unique entries (insertion order) with a warning and an
info log; if it exceeds 5 entries all equal to its head, it is cleared
with a warning.  Both checks read the original queue. -/
def monitorStep (st : CrawlState) : CrawlState :=
  match st.loading, st.queue with
  | true, h :: t =>
    let q := h :: t
    let uniq := dedupF q
    let st1 :=
      if 2 * uniq.length < q.length ∧ 10 < q.length then
        { st with queue := uniq, logs := pushLog .info (pushLog .warning st.logs) }
      else st
    if 5 < q.length ∧ q.all (fun u => u = h) then
      { st1 with queue := [], logs := pushLog .warning st1.logs }
    else st1
  | _, _ => st

/-- The completion effect (src/components/image-downloader.tsx:
1314-1327): when the session is running, the queue is empty and nothing
is processing, a settle timeout ends the session with a success log. -/
def completeStep (st : CrawlState) : CrawlState :=
  if st.loading = true ∧ st.queue = [] ∧ st.isProcessing = false then
    { st with loading := false, logs := pushLog .success st.logs }
  else st

/-- Model of `stopCrawling()`
(src/components/image-downloader.tsx:1386-1399): clear `loading`,
clear the pending queue, log the stop message, cancel the scheduled
queue-processor timeout.  Nothing else changes. -/
def stopCrawling (st : CrawlState) : CrawlState :=
  { st with loading := false, queue := [], logs := pushLog .info st.logs }

/-- Model of `startCrawling()`
(src/components/image-downloader.tsx:1329-1384): rejects an empty or
unparsable seed (`none`: the session does not start); otherwise resets
every piece of session state and seeds the queue with the normalized
seed URL, logging the two start messages. -/
def startCrawling (seed : List Nat) : Option CrawlState :=
  if seed = [] then none
  else if isValidUrl seed = false then none
  else some
    { loading := true, visited := [], queue := [normalizeUrl seed seed],
      images := [], pagesVisited := 0, imagesFound := 0, maxDepthReached := 0,
      logs := pushLog .info (pushLog .info []), isProcessing := false,
      fetched := [] }

/-- Model of `handleImageError(url, index)`
(src/components/image-downloader.tsx:1492-1515): mark the record at
`index` (if any) load-failed and log an error. -/
def handleImageError (st : CrawlState) (index : Nat) : CrawlState :=
  let images :=
    match st.images.get? index with
    | none => st.images
    | some img => st.images.set index { img with loadFailed := true }
  { st with images := images, logs := pushLog .error st.logs }

/-- Model of `retryImage(index)`
(src/components/image-downloader.tsx:1518-1540): if a record exists at
`index`, clear its `loadFailed` flag, increment its `retryCount` and
log; no bound check happens here. -/
def retryImage (st : CrawlState) (index : Nat) : CrawlState :=
  match st.images.get? index with
  | none => st
  | some img =>
    { st with
      images := st.images.set index
        { img with loadFailed := false, retryCount := img.retryCount + 1 },
      logs := pushLog .info st.logs }

/-- Model of `filterImages()`
(src/components/image-downloader.tsx:1543-1553): the view the image
grid renders — all images, or those of the selected type. -/
def filterImages (st : CrawlState) (filter : Option ImageType) :
    List ImageItem :=
  match filter with
  | none => st.images
  | some t => st.images.filter (fun img => img.type = t)

/-- The render guard of the Retry button
(src/components/image-downloader.tsx:1776-1786): the button for grid
position `index` exists iff the record at `index` of the *filtered*
view is load-failed with `retryCount < maxRetries`.  Its click handler
then calls `retryImage(index)`, which indexes the *unfiltered*
registry. -/
def retryOffered (cfg : CrawlSettings) (st : CrawlState)
    (filter : Option ImageType) (index : Nat) : Bool :=
  match (filterImages st filter).get? index with
  | none => false
  | some img => img.loadFailed && img.retryCount < cfg.maxRetries

/-- The states one crawl session can reach: the state `startCrawling`
builds from a valid seed, closed under every operation the component
can perform — a `crawlPage` run (with any fetch outcome), a
`processQueue` invocation, the queue monitor, the completion effect,
`stopCrawling`, an image-load error, and a click on an offered Retry
button. -/
inductive Reached (cfg : CrawlSettings) (seed : List Nat) : CrawlState → Prop
  | start (st : CrawlState) (h : startCrawling seed = some st) :
      Reached cfg seed st
  | crawl {st : CrawlState} (pageUrl : List Nat) (depth : Nat)
      (res : FetchPage) (h : Reached cfg seed st) :
      Reached cfg seed (crawlPage cfg st pageUrl depth res)
  | dequeue {st : CrawlState} (res : FetchPage) (h : Reached cfg seed st) :
      Reached cfg seed (processQueueStep cfg seed st res)
  | monitor {st : CrawlState} (h : Reached cfg seed st) :
      Reached cfg seed (monitorStep st)
  | complete {st : CrawlState} (h : Reached cfg seed st) :
      Reached cfg seed (completeStep st)
  | stop {st : CrawlState} (h : Reached cfg seed st) :
      Reached cfg seed (stopCrawling st)
  | imgError {st : CrawlState} (index : Nat) (h : Reached cfg seed st) :
      Reached cfg seed (handleImageError st index)
  | clickRetry {st : CrawlState} (filter : Option ImageType) (index : Nat)
      (h : Reached cfg seed st)
      (hg : retryOffered cfg st filter index = true) :
      Reached cfg seed (retryImage st index)

/-! ## The image proxy route (src/app/api/image-proxy/route.ts) -/

/-- Model of `getYouTubeThumbnailUrls(videoId)`
(src/app/api/image-proxy/route.ts:6-14): the five thumbnail variants,
highest resolution first. -/
def getYouTubeThumbnailUrls (videoId : List Nat) : List (List Nat) :=
  [ str ("https://img.youtube.com/vi/") ++ videoId ++ str ("/maxresdefault.jpg"),
    str ("https://img.youtube.com/vi/") ++ videoId ++ str ("/hqdefault.jpg"),
    str ("https://img.youtube.com/vi/") ++ videoId ++ str ("/mqdefault.jpg"),
    str ("https://img.youtube.com/vi/") ++ videoId ++ str ("/sddefault.jpg"),
    str ("https://img.youtube.com/vi/") ++ videoId ++ str ("/default.jpg") ]

/-- Result of `isYouTubeThumbnail(url)` in the route
(src/app/api/image-proxy/route.ts:17-32). -/
structure YtCheck where
  isYouTube : Bool
  videoId : Option (List Nat)
deriving DecidableEq

/-- Model of the route's `isYouTubeThumbnail(url)`: hostname must be
`img.youtube.com` or `i.ytimg.com` and the path must contain a `vi`
segment followed by one more segment, the video id; any other case
(including a parse failure) reports not-a-thumbnail. -/
def ytCheck (url : List Nat) : YtCheck :=
  match parseAbs url with
  | none => ⟨false, none⟩
  | some u =>
    let hostname := u.host.takeWhile notColon
    if hostname = str ("img.youtube.com") ∨ hostname = str ("i.ytimg.com") then
      let pathParts := splitOn 47 u.path
      match pathParts.findIdx? (fun part => part = str ("vi")) with
      | some i =>
        match pathParts.get? (i + 1) with
        | some vid => ⟨true, some vid⟩
        | none => ⟨false, none⟩
      | none => ⟨false, none⟩
    else ⟨false, none⟩

/-- Outcome of one image fetch: 2xx, non-2xx, or a thrown error
(timeout / abort / transport). -/
inductive FetchImg where
  | ok | notOk | err
deriving DecidableEq

/-- The `for (const thumbnailUrl of thumbnailUrls)` loop of the route's
`GET` (src/app/api/image-proxy/route.ts:107-126): try each variant in
order, break on the first 2xx; a non-2xx response or a thrown fetch
both move to the next variant.  Returns the list of URLs attempted, in
order, and whether one succeeded (the post-loop
`!response || !response.ok` check fails the request otherwise). -/
def tryThumbnails (f : List Nat → FetchImg) :
    List (List Nat) → List (List Nat) × Bool
  | [] => ([], false)
  | u :: rest =>
    match f u with
    | .ok => ([u], true)
    | .notOk => let r := tryThumbnails f rest; (u :: r.1, r.2)
    | .err => let r := tryThumbnails f rest; (u :: r.1, r.2)

/-- The attempt trace of `fetchWithRetry(url, options, maxRetries)`
(src/app/api/image-proxy/route.ts:35-64): up to `maxRetries + 1`
attempts at the same URL, stopping at the first 2xx. -/
def fetchRetryTrace (f : List Nat → FetchImg) (url : List Nat) :
    Nat → List (List Nat) × Bool
  | 0 => ([], false)
  | n + 1 =>
    match f url with
    | .ok => ([url], true)
    | .notOk => let r := fetchRetryTrace f url n; (url :: r.1, r.2)
    | .err => let r := fetchRetryTrace f url n; (url :: r.1, r.2)

/-- Outcome of the route's `GET`: an image response, reporting which
upstream URL supplied the bytes, or an error response. -/
inductive ProxyOutcome where
  | served (fromUrl : List Nat)
  | failed
deriving DecidableEq

/-- Model of the route's `GET` handler
(src/app/api/image-proxy/route.ts:66-217), as the pair (outcome, URLs
fetched upstream in order): an unparsable `url` parameter fails with no
fetch; a YouTube thumbnail URL with a truthy video id walks the
fallback chain; everything else is fetched with up to 2 retries. -/
def imageProxyGET (f : List Nat → FetchImg) (url : List Nat) :
    ProxyOutcome × List (List Nat) :=
  match parseAbs url with
  | none => (.failed, [])
  | some _ =>
    let yc := ytCheck url
    match yc.isYouTube, yc.videoId with
    | true, some vid =>
      if vid ≠ [] then
        let r := tryThumbnails f (getYouTubeThumbnailUrls vid)
        (if r.2 then .served (r.1.getLastD []) else .failed, r.1)
      else
        let r := fetchRetryTrace f url 3
        (if r.2 then .served url else .failed, r.1)
    | _, _ =>
      let r := fetchRetryTrace f url 3
      (if r.2 then .served url else .failed, r.1)

/-! ## Elementary lemmas about the string model -/

theorem lowerChar_idem (c : Nat) : lowerChar (lowerChar c) = lowerChar c := by
  unfold lowerChar
  split <;> first
    | omega
    | (split <;> omega)

theorem lowerStr_idem (s : List Nat) : lowerStr (lowerStr s) = lowerStr s := by
  induction s with
  | nil => rfl
  | cons a l ih =>
    simp only [lowerStr, List.map_cons, List.map_map] at *
    exact List.cons_eq_cons.mpr ⟨lowerChar_idem a, ih⟩

theorem lowerStr_fixed {s : List Nat} (h : ∀ c ∈ s, 97 ≤ c ∧ c ≤ 122) :
    lowerStr s = s := by
  induction s with
  | nil => rfl
  | cons a l ih =>
    have ha := h a (by simp)
    have : lowerChar a = a := by unfold lowerChar; split <;> omega
    simp only [lowerStr, List.map_cons] at *
    exact List.cons_eq_cons.mpr ⟨this, ih (fun c hc => h c (by simp [hc]))⟩

theorem lowerChar_of_alpha {c : Nat} (h : isAlphaCode c = true) :
    97 ≤ lowerChar c ∧ lowerChar c ≤ 122 := by
  simp only [isAlphaCode, Bool.or_eq_true, Bool.and_eq_true, decide_eq_true_eq] at h
  unfold lowerChar
  split <;> omega

theorem takeWhile_app_of (p : Nat → Bool) (xs ys : List Nat)
    (h1 : ∀ x ∈ xs, p x = true)
    (h2 : ∀ y, ys.head? = some y → p y = false) :
    (xs ++ ys).takeWhile p = xs := by
  induction xs with
  | nil =>
    cases ys with
    | nil => rfl
    | cons y t =>
      simp only [List.nil_append, List.takeWhile_cons, h2 y rfl]
      simp
  | cons a l ih =>
    simp only [List.cons_append, List.takeWhile_cons, h1 a (by simp)]
    exact congrArg (a :: ·) (ih (fun x hx => h1 x (by simp [hx])))

theorem dropWhile_app_of (p : Nat → Bool) (xs ys : List Nat)
    (h1 : ∀ x ∈ xs, p x = true)
    (h2 : ∀ y, ys.head? = some y → p y = false) :
    (xs ++ ys).dropWhile p = ys := by
  induction xs with
  | nil =>
    cases ys with
    | nil => rfl
    | cons y t =>
      simp only [List.nil_append, List.dropWhile_cons, h2 y rfl]
      simp
  | cons a l ih =>
    simp only [List.cons_append, List.dropWhile_cons, h1 a (by simp)]
    exact ih (fun x hx => h1 x (by simp [hx]))

theorem takeWhile_all_of (p : Nat → Bool) (xs : List Nat)
    (h1 : ∀ x ∈ xs, p x = true) : xs.takeWhile p = xs := by
  have := takeWhile_app_of p xs [] h1 (by intro y hy; simp at hy)
  simpa using this

theorem mem_takeWhile_of (p : Nat → Bool) {x : Nat} {xs : List Nat}
    (h : x ∈ xs.takeWhile p) : x ∈ xs ∧ p x = true := by
  induction xs with
  | nil => simp [List.takeWhile] at h
  | cons a l ih =>
    rw [List.takeWhile_cons] at h
    by_cases hp : p a = true
    · simp only [hp, if_true, List.mem_cons] at h
      rcases h with h | h
      · exact ⟨by simp [h], h ▸ hp⟩
      · have := ih h
        exact ⟨by simp [this.1], this.2⟩
    · simp only [Bool.not_eq_true] at hp
      simp [hp] at h

theorem head_dropWhile_false (p : Nat → Bool) (l : List Nat) :
    ∀ y, (l.dropWhile p).head? = some y → p y = false := by
  induction l with
  | nil => intro y h; simp at h
  | cons a t ih =>
    intro y h
    rw [List.dropWhile_cons] at h
    by_cases hp : p a = true
    · simp only [hp, if_true] at h
      exact ih y h
    · simp only [Bool.not_eq_true] at hp
      rw [if_neg (by simp [hp])] at h
      simp only [List.head?_cons, Option.some_inj] at h
      exact h ▸ hp

theorem lowerChar_pres (c : Nat) :
    lowerChar c = c ∨ (97 ≤ lowerChar c ∧ lowerChar c ≤ 122) := by
  unfold lowerChar
  split
  · right; omega
  · left; rfl

theorem notQH_lowerChar {c : Nat} (h : notQH c = true) :
    notQH (lowerChar c) = true := by
  rcases lowerChar_pres c with h1 | h1
  · rw [h1]; exact h
  · simp only [notQH, Bool.and_eq_true, bne_iff_ne, ne_eq]
    omega

theorem notHostDelim_lowerChar {c : Nat} (h : notHostDelim c = true) :
    notHostDelim (lowerChar c) = true := by
  rcases lowerChar_pres c with h1 | h1
  · rw [h1]; exact h
  · have : isHostDelim (lowerChar c) = false := by
      simp only [isHostDelim, Bool.or_eq_false_iff, beq_eq_false_iff_ne, ne_eq]
      omega
    simp [notHostDelim, this]

/-! ## Well-formedness of parsed URLs and the serialization round trip -/

/-- The shape invariants every `URLRec` produced by the modelled parser
satisfies; they are exactly what makes re-parsing a serialized
canonical key recover its components. -/
structure WFURL (u : URLRec) : Prop where
  scheme_ne : u.scheme ≠ []
  scheme_lower : ∀ c ∈ u.scheme, 97 ≤ c ∧ c ≤ 122
  host_ne : u.host ≠ []
  host_nodelim : ∀ c ∈ u.host, notHostDelim c = true
  host_lower : lowerStr u.host = u.host
  path_head : u.path.head? = some 47
  path_noqh : ∀ c ∈ u.path, notQH c = true
  search_ok : u.search = [] ∨
    (u.search.head? = some 63 ∧ u.search.tail ≠ [] ∧
     ∀ c ∈ u.search.tail, notHash c = true)

theorem pathQOf_fst_noqh (s : List Nat) : ∀ c ∈ (pathQOf s).1, notQH c = true := by
  intro c hc
  exact (mem_takeWhile_of notQH hc).2

theorem pathQOf_snd_ok (s : List Nat) : (pathQOf s).2 = [] ∨
    ((pathQOf s).2.head? = some 63 ∧ (pathQOf s).2.tail ≠ [] ∧
     ∀ c ∈ (pathQOf s).2.tail, notHash c = true) := by
  unfold pathQOf
  dsimp only
  split
  · rename_i t heq
    split
    · left; rfl
    · rename_i hq
      right
      refine ⟨rfl, hq, ?_⟩
      intro c hc
      exact (mem_takeWhile_of notHash hc).2
  · left; rfl

theorem pathQOf_fst_head_of_delim (s : List Nat)
    (hd : ∀ y, s.head? = some y → notHostDelim y = false) :
    (pathQOf s).1 = [] ∨ ((pathQOf s).1).head? = some 47 := by
  cases s with
  | nil => left; rfl
  | cons y t =>
    by_cases hy : notQH y = true
    · right
      have hdy : isHostDelim y = true := by
        have := hd y rfl
        simp [notHostDelim] at this
        exact this
      have : y = 47 := by
        simp only [isHostDelim, Bool.or_eq_true, beq_iff_eq] at hdy
        simp only [notQH, Bool.and_eq_true, bne_iff_ne, ne_eq] at hy
        omega
      show ((y :: t).takeWhile notQH).head? = some 47
      rw [List.takeWhile_cons, if_pos hy]
      simp [this]
    · left
      show (y :: t).takeWhile notQH = []
      rw [List.takeWhile_cons]
      simp only [Bool.not_eq_true] at hy
      simp [hy]

theorem dirOf_head47 {p : List Nat} (h : p.head? = some 47) :
    (dirOf p).head? = some 47 := by
  cases p with
  | nil => simp at h
  | cons c cs =>
    simp only [List.head?_cons, Option.some_inj] at h
    subst h
    unfold dirOf
    by_cases hm : 47 ∈ cs
    · simp [hm]
    · simp [hm]

theorem mem_dirOf : ∀ (p : List Nat), ∀ x ∈ dirOf p, x ∈ p ∨ x = 47 := by
  intro p
  induction p with
  | nil => intro x hx; simp [dirOf] at hx
  | cons c cs ih =>
    intro x hx
    unfold dirOf at hx
    by_cases hm : 47 ∈ cs
    · simp only [hm, if_true, List.mem_cons] at hx
      rcases hx with hx | hx
      · left; simp [hx]
      · rcases ih x hx with h | h
        · left; simp [h]
        · right; exact h
    · simp only [hm, if_false] at hx
      by_cases hc : c = 47
      · simp [hc] at hx
        right; omega
      · simp [hc] at hx

theorem parseAbs_WF {s : List Nat} {u : URLRec} (h : parseAbs s = some u) :
    WFURL u := by
  unfold parseAbs at h
  dsimp only at h
  split at h
  · rename_i after heq
    split at h
    · rename_i hg
      split at h
      · exact absurd h (by simp)
      · rename_i hhr
        rw [Option.some_inj] at h
        subst h
        have hdelim := head_dropWhile_false notHostDelim after
        refine ⟨?_, ?_, ?_, ?_, ?_, ?_, ?_, ?_⟩
        · simpa [lowerStr] using hg.1
        · intro c hc
          obtain ⟨c0, hc0, rfl⟩ := List.mem_map.mp hc
          exact lowerChar_of_alpha (List.all_eq_true.mp hg.2 c0 hc0)
        · simpa [lowerStr] using hhr
        · intro c hc
          obtain ⟨c0, hc0, rfl⟩ := List.mem_map.mp hc
          exact notHostDelim_lowerChar (mem_takeWhile_of notHostDelim hc0).2
        · exact lowerStr_idem _
        · rcases pathQOf_fst_head_of_delim (after.dropWhile notHostDelim) hdelim
            with hp | hp
          · simp [hp]
          · have hne : (pathQOf (after.dropWhile notHostDelim)).1 ≠ [] := by
              intro hcon
              rw [hcon] at hp
              simp at hp
            simp only [hne, if_false]
            exact hp
        · intro c hc
          split at hc
          · simp only [List.mem_singleton] at hc
            subst hc
            rfl
          · exact pathQOf_fst_noqh _ c hc
        · exact pathQOf_snd_ok _
    · exact absurd h (by simp)
  · exact absurd h (by simp)

theorem parseRel_WF {input base : List Nat} {u : URLRec}
    (h : parseRel input base = some u) : WFURL u := by
  unfold parseRel at h
  split at h
  · exact parseAbs_WF h
  · split at h
    · exact absurd h (by simp)
    · rename_i b hb
      have hwb : WFURL b := parseAbs_WF hb
      split at h
      · rw [Option.some_inj] at h
        exact h ▸ hwb
      · rename_i tl hnl
        dsimp only at h
        rw [Option.some_inj] at h
        subst h
        have hdelim : ∀ y, (47 :: tl : List Nat).head? = some y →
            notHostDelim y = false := by
          intro y hy
          simp only [List.head?_cons, Option.some_inj] at hy
          subst hy
          rfl
        refine ⟨hwb.scheme_ne, hwb.scheme_lower, hwb.host_ne, hwb.host_nodelim,
          hwb.host_lower, ?_, ?_, pathQOf_snd_ok (47 :: tl)⟩
        · rcases pathQOf_fst_head_of_delim (47 :: tl) hdelim with hp | hp
          · simp [hp]
          · have hne : (pathQOf (47 :: tl)).1 ≠ [] := by
              intro hcon
              rw [hcon] at hp
              simp at hp
            simp only [hne, if_false]
            exact hp
        · intro c hc
          split at hc
          · simp only [List.mem_singleton] at hc
            subst hc
            rfl
          · exact pathQOf_fst_noqh _ c hc
      · rename_i tl hnl
        dsimp only at h
        rw [Option.some_inj] at h
        subst h
        exact ⟨hwb.scheme_ne, hwb.scheme_lower, hwb.host_ne, hwb.host_nodelim,
          hwb.host_lower, hwb.path_head, hwb.path_noqh, pathQOf_snd_ok (63 :: tl)⟩
      · rw [Option.some_inj] at h
        exact h ▸ hwb
      · dsimp only at h
        rw [Option.some_inj] at h
        subst h
        refine ⟨hwb.scheme_ne, hwb.scheme_lower, hwb.host_ne, hwb.host_nodelim,
          hwb.host_lower, ?_, ?_, pathQOf_snd_ok input⟩
        · have hd := dirOf_head47 hwb.path_head
          cases hdo : dirOf b.path with
          | nil => rw [hdo] at hd; simp at hd
          | cons x xs =>
            rw [hdo] at hd
            simp only [List.head?_cons, Option.some_inj] at hd
            subst hd
            simp
        · intro c hc
          rw [List.mem_append] at hc
          rcases hc with hc | hc
          · rcases mem_dirOf b.path c hc with hm | hm
            · exact hwb.path_noqh c hm
            · subst hm
              rfl
          · exact pathQOf_fst_noqh _ c hc

theorem mem_stripTrailingSlash {c : Nat} {p : List Nat}
    (h : c ∈ stripTrailingSlash p) : c ∈ p := by
  unfold stripTrailingSlash at h
  split at h
  · exact List.dropLast_subset p h
  · exact h

/-- The serialized lower-cased stripped path of a well-formed URL:
every code point stays inside the path alphabet. -/
theorem serialPath_noqh {u : URLRec} (h : WFURL u) :
    ∀ c ∈ lowerStr (stripTrailingSlash u.path), notQH c = true := by
  intro c hc
  obtain ⟨c0, hc0, rfl⟩ := List.mem_map.mp hc
  exact notQH_lowerChar (h.path_noqh c0 (mem_stripTrailingSlash hc0))

/-- The serialized path is empty or still starts with `/`. -/
theorem serialPath_head {u : URLRec} (h : WFURL u) :
    lowerStr (stripTrailingSlash u.path) = [] ∨
      (lowerStr (stripTrailingSlash u.path)).head? = some 47 := by
  cases hp : u.path with
  | nil =>
    have := h.path_head
    rw [hp] at this
    simp at this
  | cons a t =>
    have ha : a = 47 := by
      have := h.path_head
      rw [hp] at this
      simpa using this
    subst ha
    unfold stripTrailingSlash
    split
    · cases t with
      | nil =>
        left
        show lowerStr [] = []
        rfl
      | cons b t2 =>
        right
        rw [List.dropLast_cons₂]
        simp only [lowerStr, List.map_cons, List.head?_cons, Option.some_inj]
        rfl
    · right
      simp only [lowerStr, List.map_cons, List.head?_cons, Option.some_inj]
      rfl

/-- Head of the serialized path-plus-search tail: always a host
delimiter, when present. -/
theorem serialPS_head {u : URLRec} (h : WFURL u) :
    ∀ y, ((lowerStr (stripTrailingSlash u.path) ++ u.search).head? = some y) →
      notHostDelim y = false := by
  intro y hy
  rcases serialPath_head h with hp | hp
  · rw [hp, List.nil_append] at hy
    rcases h.search_ok with hs | hs
    · rw [hs] at hy
      simp at hy
    · rw [hs.1] at hy
      rw [Option.some_inj] at hy
      subst hy
      rfl
  · cases hP : lowerStr (stripTrailingSlash u.path) with
    | nil => rw [hP] at hp; simp at hp
    | cons a t =>
      rw [hP] at hp hy
      simp only [List.head?_cons, Option.some_inj] at hp
      subst hp
      simp only [List.cons_append, List.head?_cons, Option.some_inj] at hy
      subst hy
      rfl

theorem serializeKey_assoc (u : URLRec) :
    serializeKey u = u.scheme ++ ([58, 47, 47] ++
      (u.host ++ (lowerStr (stripTrailingSlash u.path) ++ u.search))) := by
  simp [serializeKey, List.append_assoc]

theorem serial_takeColon {u : URLRec} (h : WFURL u) :
    (serializeKey u).takeWhile notColon = u.scheme := by
  rw [serializeKey_assoc]
  refine takeWhile_app_of notColon _ _ ?_ ?_
  · intro c hc
    have := h.scheme_lower c hc
    simp only [notColon, bne_iff_ne, ne_eq]
    omega
  · intro y hy
    simp only [List.cons_append, List.head?_cons, Option.some_inj] at hy
    subst hy
    rfl

theorem serial_dropColon {u : URLRec} (h : WFURL u) :
    (serializeKey u).dropWhile notColon = 58 :: 47 :: 47 ::
      (u.host ++ (lowerStr (stripTrailingSlash u.path) ++ u.search)) := by
  rw [serializeKey_assoc]
  have := dropWhile_app_of notColon u.scheme
    ([58, 47, 47] ++ (u.host ++ (lowerStr (stripTrailingSlash u.path) ++ u.search)))
    (fun c hc => by
      have := h.scheme_lower c hc
      simp only [notColon, bne_iff_ne, ne_eq]
      omega)
    (fun y hy => by
      simp only [List.cons_append, List.head?_cons, Option.some_inj] at hy
      subst hy
      rfl)
  rw [this]
  rfl

theorem serial_takeHost {u : URLRec} (h : WFURL u) :
    (u.host ++ (lowerStr (stripTrailingSlash u.path) ++ u.search)).takeWhile
      notHostDelim = u.host :=
  takeWhile_app_of notHostDelim _ _ h.host_nodelim (serialPS_head h)

theorem serial_dropHost {u : URLRec} (h : WFURL u) :
    (u.host ++ (lowerStr (stripTrailingSlash u.path) ++ u.search)).dropWhile
      notHostDelim = lowerStr (stripTrailingSlash u.path) ++ u.search :=
  dropWhile_app_of notHostDelim _ _ h.host_nodelim (serialPS_head h)

theorem serial_pathQOf {u : URLRec} (h : WFURL u) :
    pathQOf (lowerStr (stripTrailingSlash u.path) ++ u.search) =
      (lowerStr (stripTrailingSlash u.path), u.search) := by
  have hsearch_head : ∀ y, u.search.head? = some y → notQH y = false := by
    intro y hy
    rcases h.search_ok with hs | hs
    · rw [hs] at hy
      simp at hy
    · rw [hs.1] at hy
      rw [Option.some_inj] at hy
      subst hy
      rfl
  have htake : (lowerStr (stripTrailingSlash u.path) ++ u.search).takeWhile notQH
      = lowerStr (stripTrailingSlash u.path) :=
    takeWhile_app_of notQH _ _ (serialPath_noqh h) hsearch_head
  have hdrop : (lowerStr (stripTrailingSlash u.path) ++ u.search).dropWhile notQH
      = u.search :=
    dropWhile_app_of notQH _ _ (serialPath_noqh h) hsearch_head
  unfold pathQOf
  dsimp only
  rw [htake, hdrop]
  rcases h.search_ok with hs | hs
  · rw [hs]
  · have hform : u.search = 63 :: u.search.tail := by
      cases hsc : u.search with
      | nil => rw [hsc] at hs; simp at hs
      | cons a t =>
        rw [hsc] at hs
        simp only [List.head?_cons, Option.some_inj] at hs
        rw [hs.1]
        rfl
    rw [hform]
    have htail : (u.search.tail).takeWhile notHash = u.search.tail :=
      takeWhile_all_of notHash _ hs.2.2
    simp only [htail]
    rw [if_neg hs.2.1]

/-- Re-parsing a serialized canonical key recovers its components
(an empty serialized path reading back as `/`). -/
theorem parseAbs_serializeKey {u : URLRec} (h : WFURL u) :
    parseAbs (serializeKey u) = some
      ⟨u.scheme, u.host,
       (if lowerStr (stripTrailingSlash u.path) = [] then [47]
        else lowerStr (stripTrailingSlash u.path)), u.search⟩ := by
  unfold parseAbs
  rw [serial_takeColon h, serial_dropColon h]
  dsimp only
  rw [if_pos ⟨h.scheme_ne, List.all_eq_true.mpr (fun c hc => by
    have := h.scheme_lower c hc
    simp only [isAlphaCode, Bool.or_eq_true, Bool.and_eq_true, decide_eq_true_eq]
    omega)⟩]
  rw [serial_takeHost h]
  rw [if_neg h.host_ne]
  rw [serial_dropHost h, serial_pathQOf h]
  rw [lowerStr_fixed h.scheme_lower, h.host_lower]

theorem stripTrailingSlash_of_ne {l : List Nat} (h : l.getLast? ≠ some 47) :
    stripTrailingSlash l = l := by
  unfold stripTrailingSlash
  rw [if_neg h]

/-- Serializing the re-parse of a canonical key gives the key back —
provided the serialized path does not end in a slash (which happens
exactly when the original path ended in two or more slashes). -/
theorem reserialize_eq {u : URLRec}
    (hs : (lowerStr (stripTrailingSlash u.path)).getLast? ≠ some 47) :
    serializeKey ⟨u.scheme, u.host,
      (if lowerStr (stripTrailingSlash u.path) = [] then [47]
       else lowerStr (stripTrailingSlash u.path)), u.search⟩ = serializeKey u := by
  unfold serializeKey
  dsimp only
  by_cases hP : lowerStr (stripTrailingSlash u.path) = []
  · rw [if_pos hP, hP]
    rfl
  · rw [if_neg hP]
    have h1 : stripTrailingSlash (lowerStr (stripTrailingSlash u.path)) =
        lowerStr (stripTrailingSlash u.path) :=
      stripTrailingSlash_of_ne hs
    rw [h1, lowerStr_idem]

theorem startsWithL_cons_cons (c : Nat) (rest : List Nat) (hc : 97 ≤ c) :
    startsWithL [47, 47] (c :: rest) = false := by
  have h47 : ((47 : Nat) == c) = false := by
    simp only [beq_eq_false_iff_ne, ne_eq]
    omega
  simp [startsWithL, h47]

theorem looksAbsolute_serializeKey {u : URLRec} (h : WFURL u) :
    looksAbsolute (serializeKey u) = true := by
  unfold looksAbsolute
  rw [serial_takeColon h, serial_dropColon h]
  dsimp only
  rw [Bool.and_eq_true, Bool.and_eq_true]
  refine ⟨⟨by simp [h.scheme_ne], ?_⟩, ?_⟩
  · exact List.all_eq_true.mpr (fun c hc => by
      have := h.scheme_lower c hc
      simp only [isAlphaCode, Bool.or_eq_true, Bool.and_eq_true, decide_eq_true_eq]
      omega)
  · rfl

/-- Normalizing an already-canonical key (whose path does not end in a
slash) returns it unchanged, against any base. -/
theorem normalizeUrl_serializeKey {u : URLRec} (h : WFURL u)
    (hs : (lowerStr (stripTrailingSlash u.path)).getLast? ≠ some 47)
    (base : List Nat) :
    normalizeUrl (serializeKey u) base = serializeKey u := by
  by_cases hb1 : startsWithL strHttp (serializeKey u) = true
  · unfold normalizeUrl
    rw [if_pos hb1, parseAbs_serializeKey h]
    exact reserialize_eq hs
  · obtain ⟨c, cs, hsch⟩ := List.exists_cons_of_ne_nil h.scheme_ne
    have hc : 97 ≤ c := (h.scheme_lower c (by rw [hsch]; simp)).1
    have hser : serializeKey u = c :: (cs ++ ([58, 47, 47] ++
        (u.host ++ (lowerStr (stripTrailingSlash u.path) ++ u.search)))) := by
      rw [serializeKey_assoc, hsch]
      rfl
    have hb2 : startsWithL [47, 47] (serializeKey u) = false := by
      rw [hser]
      exact startsWithL_cons_cons c _ hc
    unfold normalizeUrl
    rw [if_neg (by simp [hb1]), if_neg (by simp [hb2])]
    unfold parseRel
    rw [if_pos (looksAbsolute_serializeKey h), parseAbs_serializeKey h]
    exact reserialize_eq hs

/-- Every successful `normalizeUrl` output is the serialization of a
well-formed `URLRec`. -/
theorem normalizeUrl_shape (input base : List Nat) :
    normalizeUrl input base = [] ∨
      ∃ u, WFURL u ∧ normalizeUrl input base = serializeKey u := by
  unfold normalizeUrl
  split
  · cases hpa : parseAbs input with
    | none => left; rfl
    | some u => right; exact ⟨u, parseAbs_WF hpa, rfl⟩
  · split
    · cases hpb : parseAbs base with
      | none => left; rfl
      | some b =>
        dsimp only
        cases hpc : parseAbs (b.scheme ++ [58] ++ input) with
        | none => left; rfl
        | some u => right; exact ⟨u, parseAbs_WF hpc, rfl⟩
    · cases hpr : parseRel input base with
      | none => left; rfl
      | some u => right; exact ⟨u, parseRel_WF hpr, rfl⟩

/-- The path component of a canonical key, read back off the key with
the same splitting the parser uses (it may be empty; the host part of a
key produced by `normalizeUrl` never contains `/`, `?` or `#`). -/
def keyPathRaw (k : List Nat) : List Nat :=
  (((k.dropWhile notColon).drop 3).dropWhile notHostDelim).takeWhile notQH

theorem keyPathRaw_serializeKey {u : URLRec} (h : WFURL u) :
    keyPathRaw (serializeKey u) = lowerStr (stripTrailingSlash u.path) := by
  unfold keyPathRaw
  rw [serial_dropColon h]
  simp only [List.drop_succ_cons, List.drop_zero]
  rw [serial_dropHost h]
  have := congrArg Prod.fst (serial_pathQOf h)
  exact this

/-- Claim C7, counterexample: `normalizeUrl` is not idempotent on every
pair on which it succeeds.  On `https://example.com/a//` (a path ending
in two slashes) it succeeds and returns `https://example.com/a/`, but
re-normalizing that output strips one more slash and yields
`https://example.com/a`, a different key. -/
theorem normalizeUrl_idem_cex :
    normalizeUrl (str ("https://example.com/a//")) (str ("https://example.com"))
      = str ("https://example.com/a/") ∧
    normalizeUrl
      (normalizeUrl (str ("https://example.com/a//")) (str ("https://example.com")))
      (str ("https://example.com"))
      = str ("https://example.com/a") ∧
    str ("https://example.com/a/") ≠ str ("https://example.com/a") := by
  refine ⟨by decide, by decide, by decide⟩

/-- Claim C7 (amended): `normalizeUrl` is deterministic (equal inputs
give equal outputs), and it is idempotent on every `(raw, base)` on
which it succeeds whose canonical key's path component does not end in
a slash — re-normalizing the key returns it unchanged.  (When the raw
path ends in two or more slashes, the key's path component retains a
trailing slash and each further application strips one more slash, as
the counterexample shows.) -/
theorem normalizeUrl_idem_amended :
    (∀ raw base : List Nat, normalizeUrl raw base ≠ [] →
      (keyPathRaw (normalizeUrl raw base)).getLast? ≠ some 47 →
      normalizeUrl (normalizeUrl raw base) base = normalizeUrl raw base) ∧
    (∀ raw base raw2 base2 : List Nat, raw = raw2 → base = base2 →
      normalizeUrl raw base = normalizeUrl raw2 base2) := by
  constructor
  · intro raw base hne hs
    rcases normalizeUrl_shape raw base with h0 | ⟨u, hwf, heq⟩
    · exact absurd h0 hne
    · rw [heq] at hs ⊢
      rw [keyPathRaw_serializeKey hwf] at hs
      exact normalizeUrl_serializeKey hwf hs base
  · intro raw base raw2 base2 h1 h2
    rw [h1, h2]

/-- Claim C7, witness: the amended idempotence theorem applied at the
concrete pair `("https://example.com/Gallery?page=2",
"https://example.com")`. -/
theorem normalizeUrl_idem_amended_witness :
    normalizeUrl (normalizeUrl (str ("https://example.com/Gallery?page=2"))
        (str ("https://example.com"))) (str ("https://example.com"))
      = normalizeUrl (str ("https://example.com/Gallery?page=2"))
        (str ("https://example.com")) :=
  normalizeUrl_idem_amended.1 (str ("https://example.com/Gallery?page=2"))
    (str ("https://example.com")) (by decide) (by decide)

/-- Claim C10: `getImageType` is a total function — for every input
string it returns exactly one of the seven classification values, it
never throws, and an input that fails to parse as a URL is classified
`unknown` rather than raising an error. -/
theorem getImageType_total :
    (∀ url : List Nat,
      getImageType url = .jpeg ∨ getImageType url = .png ∨
      getImageType url = .gif ∨ getImageType url = .svg ∨
      getImageType url = .webp ∨ getImageType url = .avif ∨
      getImageType url = .unknown) ∧
    (∀ url : List Nat, parseAbs url = none → getImageType url = .unknown) := by
  constructor
  · intro url
    cases getImageType url <;> simp
  · intro url h
    unfold getImageType
    rw [h]

/-- Claim C10, witness: the totality theorem applied at the non-URL
input `"notaurl"`, which classifies as `unknown`. -/
theorem getImageType_total_witness :
    getImageType (str ("notaurl")) = ImageType.unknown :=
  getImageType_total.2 (str ("notaurl")) (by decide)

/-- The per-collected-link guarantee of `extractLinks`: nonempty, from
an href of the page that survived the skip filter, normalized against
the page URL, and same-domain when external domains are off. -/
def GoodLink (cfg : CrawlSettings) (baseUrl : List Nat)
    (hrefs : List (List Nat)) (l : List Nat) : Prop :=
  l ≠ [] ∧
  (cfg.includeExternalDomains = false → isSameDomain l baseUrl = true) ∧
  ∃ href ∈ hrefs, href ≠ [] ∧ bannedHref href = false ∧
    l = normalizeUrl href baseUrl

theorem GoodLink.mono {cfg : CrawlSettings} {baseUrl : List Nat}
    {hrefs : List (List Nat)} {l href0 : List Nat}
    (h : GoodLink cfg baseUrl hrefs l) :
    GoodLink cfg baseUrl (href0 :: hrefs) l := by
  obtain ⟨h1, h2, href, hm, h3⟩ := h
  exact ⟨h1, h2, href, List.mem_cons_of_mem _ hm, h3⟩

theorem linkStep_cases (cfg : CrawlSettings) (baseUrl : List Nat)
    (acc : List (List Nat) × List (List Nat)) (href : List Nat) :
    linkStep cfg baseUrl acc href = acc ∨
    (href ≠ [] ∧ bannedHref href = false ∧
     normalizeUrl href baseUrl ≠ [] ∧ normalizeUrl href baseUrl ∉ acc.2 ∧
     ((linkStep cfg baseUrl acc href =
         (acc.1 ++ [normalizeUrl href baseUrl],
          acc.2 ++ [normalizeUrl href baseUrl]) ∧
       (cfg.includeExternalDomains = false →
         isSameDomain (normalizeUrl href baseUrl) baseUrl = true)) ∨
      linkStep cfg baseUrl acc href =
        (acc.1, acc.2 ++ [normalizeUrl href baseUrl]))) := by
  unfold linkStep
  split
  · left; rfl
  · split
    · left; rfl
    · rename_i hne hban
      dsimp only
      split
      · left; rfl
      · rename_i hnm
        push_neg at hnm
        right
        refine ⟨hne, by simpa using hban, hnm.1, hnm.2, ?_⟩
        split
        · rename_i hdom
          left
          refine ⟨rfl, ?_⟩
          intro hflag
          rcases hdom with ⟨_, hsame⟩ | hflag2
          · exact hsame
          · rw [hflag] at hflag2
            exact absurd hflag2 (by simp)
        · right; rfl

theorem linkFold_spec (cfg : CrawlSettings) (baseUrl : List Nat) :
    ∀ (hrefs : List (List Nat)) (acc : List (List Nat) × List (List Nat)),
      acc.1.Nodup → (∀ l ∈ acc.1, l ∈ acc.2) →
      ((hrefs.foldl (linkStep cfg baseUrl) acc).1.Nodup ∧
       (∀ l ∈ (hrefs.foldl (linkStep cfg baseUrl) acc).1,
          l ∈ (hrefs.foldl (linkStep cfg baseUrl) acc).2) ∧
       (∀ l ∈ (hrefs.foldl (linkStep cfg baseUrl) acc).1,
          l ∈ acc.1 ∨ GoodLink cfg baseUrl hrefs l)) := by
  intro hrefs
  induction hrefs with
  | nil =>
    intro acc h1 h2
    exact ⟨h1, h2, fun l hl => Or.inl hl⟩
  | cons href hs ih =>
    intro acc h1 h2
    rw [List.foldl_cons]
    rcases linkStep_cases cfg baseUrl acc href with
      hcase | ⟨hne, hban, hnne, hnmem, hcase⟩
    · rw [hcase]
      obtain ⟨a, b, c⟩ := ih acc h1 h2
      exact ⟨a, b, fun l hl => (c l hl).imp id GoodLink.mono⟩
    · have hgood : GoodLink cfg baseUrl (href :: hs) (normalizeUrl href baseUrl) →
          True := fun _ => trivial
      rcases hcase with ⟨heq, hdom⟩ | heq
      · rw [heq]
        have hnotin1 : normalizeUrl href baseUrl ∉ acc.1 := fun hmem =>
          hnmem (h2 _ hmem)
        have h1' : (acc.1 ++ [normalizeUrl href baseUrl]).Nodup := by
          rw [List.nodup_append]
          exact ⟨h1, List.nodup_singleton _, by simpa using hnotin1⟩
        have h2' : ∀ l ∈ acc.1 ++ [normalizeUrl href baseUrl],
            l ∈ acc.2 ++ [normalizeUrl href baseUrl] := by
          intro l hl
          rcases List.mem_append.mp hl with hl | hl
          · exact List.mem_append.mpr (Or.inl (h2 l hl))
          · exact List.mem_append.mpr (Or.inr hl)
        obtain ⟨a, b, c⟩ := ih (acc.1 ++ [normalizeUrl href baseUrl],
          acc.2 ++ [normalizeUrl href baseUrl]) h1' h2'
        refine ⟨a, b, fun l hl => ?_⟩
        rcases c l hl with hin | hg
        · rcases List.mem_append.mp hin with hin | hin
          · exact Or.inl hin
          · right
            have : l = normalizeUrl href baseUrl := by simpa using hin
            subst this
            exact ⟨hnne, hdom, href, List.mem_cons_self _ _, hne, hban, rfl⟩
        · exact Or.inr (GoodLink.mono hg)
      · rw [heq]
        have h2' : ∀ l ∈ acc.1, l ∈ acc.2 ++ [normalizeUrl href baseUrl] :=
          fun l hl => List.mem_append.mpr (Or.inl (h2 l hl))
        obtain ⟨a, b, c⟩ := ih (acc.1, acc.2 ++ [normalizeUrl href baseUrl]) h1 h2'
        exact ⟨a, b, fun l hl => (c l hl).imp id GoodLink.mono⟩

/-- Claim C8: for every page markup and page URL, `extractLinks`
returns only links that arise by normalizing, against the page URL, an
href of the page that is not empty, not a fragment-only anchor, not a
`javascript:`/`mailto:`/`tel:` reference and not exactly `/`; no URL
appears twice in the returned list; and when `includeExternalDomains`
is off every returned link is on the page URL's host. -/
theorem extractLinks_spec (cfg : CrawlSettings) (page : Page)
    (baseUrl : List Nat) :
    (extractLinks cfg page baseUrl).Nodup ∧
    (∀ l ∈ extractLinks cfg page baseUrl,
      l ≠ [] ∧ ∃ href ∈ page.anchors, href ≠ [] ∧
        startsWithL (str ("#")) href = false ∧
        startsWithL (str ("javascript:")) href = false ∧
        startsWithL (str ("mailto:")) href = false ∧
        startsWithL (str ("tel:")) href = false ∧
        href ≠ str ("/") ∧
        l = normalizeUrl href baseUrl) ∧
    (cfg.includeExternalDomains = false →
      ∀ l ∈ extractLinks cfg page baseUrl, isSameDomain l baseUrl = true) := by
  obtain ⟨a, _, c⟩ := linkFold_spec cfg baseUrl page.anchors ([], [])
    List.nodup_nil (by intro l hl; simp at hl)
  refine ⟨a, ?_, ?_⟩
  · intro l hl
    rcases c l hl with hin | hg
    · simp at hin
    · obtain ⟨h1, _, href, hm, hne, hban, h3⟩ := hg
      simp only [bannedHref, Bool.or_eq_false_iff, decide_eq_false_iff_not] at hban
      exact ⟨h1, href, hm, hne, hban.1.1.1.1, hban.1.1.1.2, hban.1.1.2,
        hban.1.2, hban.2, h3⟩
  · intro hflag l hl
    rcases c l hl with hin | hg
    · simp at hin
    · exact hg.2.1 hflag

/-- Claim C8, witness: on a page whose anchors are
`https://other.com/x` and `/about`, with external domains off and base
`https://example.com`, every returned link is same-domain — in
particular the cross-domain link is excluded and only
`https://example.com/about` is returned. -/
theorem extractLinks_spec_witness :
    (∀ l ∈ extractLinks
        ⟨2, 20, false, 0, false, 1⟩
        ⟨[str ("https://other.com/x"), str ("/about")], []⟩
        (str ("https://example.com")),
      isSameDomain l (str ("https://example.com")) = true) ∧
    extractLinks ⟨2, 20, false, 0, false, 1⟩
        ⟨[str ("https://other.com/x"), str ("/about")], []⟩
        (str ("https://example.com"))
      = [str ("https://example.com/about")] :=
  ⟨(extractLinks_spec ⟨2, 20, false, 0, false, 1⟩
      ⟨[str ("https://other.com/x"), str ("/about")], []⟩
      (str ("https://example.com"))).2.2 rfl,
   by decide⟩

/-! ## The YouTube thumbnail fallback chain (claim C9) -/

theorem tryThumbnails_isPrefixOf (f : List Nat → FetchImg) :
    ∀ urls : List (List Nat), ∃ k, (tryThumbnails f urls).1 = urls.take k := by
  intro urls
  induction urls with
  | nil => exact ⟨0, rfl⟩
  | cons u rest ih =>
    cases hf : f u with
    | ok => exact ⟨1, by simp [tryThumbnails, hf]⟩
    | notOk =>
      obtain ⟨k, hk⟩ := ih
      exact ⟨k + 1, by simp [tryThumbnails, hf, hk]⟩
    | err =>
      obtain ⟨k, hk⟩ := ih
      exact ⟨k + 1, by simp [tryThumbnails, hf, hk]⟩

theorem tryThumbnails_fail (f : List Nat → FetchImg) :
    ∀ urls : List (List Nat), (tryThumbnails f urls).2 = false →
      (tryThumbnails f urls).1 = urls ∧ ∀ u ∈ urls, f u ≠ .ok := by
  intro urls
  induction urls with
  | nil => intro _; exact ⟨rfl, by simp⟩
  | cons u rest ih =>
    intro h
    cases hf : f u with
    | ok => rw [show tryThumbnails f (u :: rest) = ([u], true) by
              simp [tryThumbnails, hf]] at h; simp at h
    | notOk =>
      have hr : (tryThumbnails f (u :: rest)) =
          (u :: (tryThumbnails f rest).1, (tryThumbnails f rest).2) := by
        simp [tryThumbnails, hf]
      rw [hr] at h ⊢
      obtain ⟨h1, h2⟩ := ih h
      refine ⟨by simp [h1], ?_⟩
      intro v hv
      rcases List.mem_cons.mp hv with hv | hv
      · subst hv; simp [hf]
      · exact h2 v hv
    | err =>
      have hr : (tryThumbnails f (u :: rest)) =
          (u :: (tryThumbnails f rest).1, (tryThumbnails f rest).2) := by
        simp [tryThumbnails, hf]
      rw [hr] at h ⊢
      obtain ⟨h1, h2⟩ := ih h
      refine ⟨by simp [h1], ?_⟩
      intro v hv
      rcases List.mem_cons.mp hv with hv | hv
      · subst hv; simp [hf]
      · exact h2 v hv

theorem tryThumbnails_succeed (f : List Nat → FetchImg) :
    ∀ urls : List (List Nat), (tryThumbnails f urls).2 = true →
      ∃ u, (tryThumbnails f urls).1.getLast? = some u ∧ f u = .ok ∧
        ∀ v ∈ (tryThumbnails f urls).1.dropLast, f v ≠ .ok := by
  intro urls
  induction urls with
  | nil => intro h; simp [tryThumbnails] at h
  | cons u rest ih =>
    intro h
    cases hf : f u with
    | ok =>
      refine ⟨u, ?_, hf, ?_⟩
      · simp [tryThumbnails, hf]
      · simp [tryThumbnails, hf]
    | notOk =>
      have hr : (tryThumbnails f (u :: rest)) =
          (u :: (tryThumbnails f rest).1, (tryThumbnails f rest).2) := by
        simp [tryThumbnails, hf]
      rw [hr] at h ⊢
      obtain ⟨w, h1, h2, h3⟩ := ih h
      cases hrl : (tryThumbnails f rest).1 with
      | nil => rw [hrl] at h1; simp at h1
      | cons b t =>
        rw [hrl] at h1 h3
        refine ⟨w, ?_, h2, ?_⟩
        · show (u :: b :: t).getLast? = some w
          rw [List.getLast?_cons_cons]
          exact h1
        · intro v hv
          have hv2 : v ∈ (u :: b :: t).dropLast := hv
          rw [List.dropLast_cons₂] at hv2
          rcases List.mem_cons.mp hv2 with hv3 | hv3
          · subst hv3; simp [hf]
          · exact h3 v hv3
    | err =>
      have hr : (tryThumbnails f (u :: rest)) =
          (u :: (tryThumbnails f rest).1, (tryThumbnails f rest).2) := by
        simp [tryThumbnails, hf]
      rw [hr] at h ⊢
      obtain ⟨w, h1, h2, h3⟩ := ih h
      cases hrl : (tryThumbnails f rest).1 with
      | nil => rw [hrl] at h1; simp at h1
      | cons b t =>
        rw [hrl] at h1 h3
        refine ⟨w, ?_, h2, ?_⟩
        · show (u :: b :: t).getLast? = some w
          rw [List.getLast?_cons_cons]
          exact h1
        · intro v hv
          have hv2 : v ∈ (u :: b :: t).dropLast := hv
          rw [List.dropLast_cons₂] at hv2
          rcases List.mem_cons.mp hv2 with hv3 | hv3
          · subst hv3; simp [hf]
          · exact h3 v hv3

theorem tryThumbnails_head (f : List Nat → FetchImg) (u : List Nat)
    (rest : List (List Nat)) :
    (tryThumbnails f (u :: rest)).1.head? = some u := by
  cases hf : f u <;> simp [tryThumbnails, hf]

/-- The `GET` handler on a YouTube thumbnail URL reduces to the
fallback loop over the five variants. -/
theorem imageProxyGET_youtube {url vid : List Nat} (f : List Nat → FetchImg)
    (hyt : ytCheck url = ⟨true, some vid⟩) (hvid : vid ≠ []) :
    imageProxyGET f url =
      (if (tryThumbnails f (getYouTubeThumbnailUrls vid)).2 = true
       then ProxyOutcome.served
         ((tryThumbnails f (getYouTubeThumbnailUrls vid)).1.getLastD [])
       else ProxyOutcome.failed,
       (tryThumbnails f (getYouTubeThumbnailUrls vid)).1) := by
  have hpa : (parseAbs url).isSome = true := by
    cases hpa : parseAbs url with
    | none =>
      rw [show ytCheck url = ⟨false, none⟩ by unfold ytCheck; rw [hpa]] at hyt
      exact absurd (congrArg YtCheck.isYouTube hyt) (by simp)
    | some u => rfl
  unfold imageProxyGET
  cases hpau : parseAbs url with
  | none => rw [hpau] at hpa; simp at hpa
  | some u =>
    dsimp only
    rw [hyt]
    dsimp only
    rw [if_pos hvid]

/-- Claim C9: for every image URL whose host is `img.youtube.com` or
`i.ytimg.com` with an extractable (truthy) video id, the proxy's `GET`
attempts the thumbnail variants starting with `maxresdefault` and
following the fixed five-element order, stopping at the first success
(the served URL is the last attempted one, is 2xx, and all earlier
attempts were failures), and it fails only after all five variants
have been attempted in vain. -/
theorem imageProxyGET_youtube_fallback (url vid : List Nat)
    (f : List Nat → FetchImg)
    (hyt : ytCheck url = ⟨true, some vid⟩) (hvid : vid ≠ []) :
    (imageProxyGET f url).2.head? =
      some (str ("https://img.youtube.com/vi/") ++ vid ++
        str ("/maxresdefault.jpg")) ∧
    (∃ k, (imageProxyGET f url).2 = (getYouTubeThumbnailUrls vid).take k) ∧
    ((imageProxyGET f url).1 = ProxyOutcome.failed →
      (imageProxyGET f url).2 = getYouTubeThumbnailUrls vid ∧
      ∀ u ∈ getYouTubeThumbnailUrls vid, f u ≠ .ok) ∧
    (∀ served, (imageProxyGET f url).1 = ProxyOutcome.served served →
      f served = .ok ∧ (imageProxyGET f url).2.getLast? = some served ∧
      ∀ v ∈ (imageProxyGET f url).2.dropLast, f v ≠ .ok) := by
  rw [imageProxyGET_youtube f hyt hvid]
  dsimp only
  refine ⟨?_, ?_, ?_, ?_⟩
  · exact tryThumbnails_head f _ _
  · exact tryThumbnails_isPrefixOf f _
  · intro hfail
    have h2 : (tryThumbnails f (getYouTubeThumbnailUrls vid)).2 = false := by
      by_contra hcon
      rw [Bool.not_eq_false] at hcon
      rw [if_pos hcon] at hfail
      exact absurd hfail (by simp)
    obtain ⟨ha, hb⟩ := tryThumbnails_fail f _ h2
    exact ⟨ha, hb⟩
  · intro served hserved
    have h2 : (tryThumbnails f (getYouTubeThumbnailUrls vid)).2 = true := by
      by_contra hcon
      rw [Bool.not_eq_true] at hcon
      rw [if_neg (by simp [hcon])] at hserved
      exact absurd hserved (by simp)
    rw [if_pos h2] at hserved
    obtain ⟨w, h1, hok, hrest⟩ := tryThumbnails_succeed f _ h2
    have hw : served = w := by
      have := congrArg (fun o => match o with
        | ProxyOutcome.served s => s
        | ProxyOutcome.failed => []) hserved
      dsimp at this
      rw [← this]
      cases hl : (tryThumbnails f (getYouTubeThumbnailUrls vid)).1 with
      | nil => rw [hl] at h1; simp at h1
      | cons b t =>
        have hgd := List.getLastD_eq_getLast? [] (b :: t)
        rw [hl] at h1
        rw [hgd, h1]
        rfl
    subst hw
    exact ⟨hok, h1, hrest⟩

/-- Claim C9, witness: the fallback theorem applied at the Scenario D
input `https://img.youtube.com/vi/abc123/hqdefault.jpg` with an
upstream on which only `maxresdefault` succeeds: the proxy attempts
`maxresdefault` first and serves it. -/
theorem imageProxyGET_youtube_fallback_witness :
    (imageProxyGET
        (fun u => if u = str ("https://img.youtube.com/vi/abc123/maxresdefault.jpg")
                  then FetchImg.ok else FetchImg.notOk)
        (str ("https://img.youtube.com/vi/abc123/hqdefault.jpg"))).2.head? =
      some (str ("https://img.youtube.com/vi/") ++ str ("abc123") ++
        str ("/maxresdefault.jpg")) :=
  (imageProxyGET_youtube_fallback
    (str ("https://img.youtube.com/vi/abc123/hqdefault.jpg")) (str ("abc123"))
    (fun u => if u = str ("https://img.youtube.com/vi/abc123/maxresdefault.jpg")
              then FetchImg.ok else FetchImg.notOk)
    (by decide) (by decide)).1

/-! ## Loop suppression (claim C6) -/

/-- A running session whose queue holds two identical entries. -/
def twoIdenticalState : CrawlState :=
  { loading := true, visited := [], images := [], pagesVisited := 0,
    imagesFound := 0, maxDepthReached := 0, logs := [], isProcessing := false,
    fetched := [],
    queue := [str ("https://example.com/x"), str ("https://example.com/x")] }

/-- A page whose twenty anchors are all `href="/"` (Scenario B). -/
def selfLinkPage : Page := ⟨List.replicate 20 (str ("/")), []⟩

/-- Claim C6, counterexample: the claim fails on the code in two ways.
First, with a running session whose queue holds two identical entries —
all entries of the queue are identical — the monitor leaves the queue
untouched and logs nothing (the all-identical clearing requires more
than 5 entries).  Second, in the Scenario B run (seed page linking to
itself twenty times via `href="/"`), the `/` hrefs are dropped by the
extractor, so after crawling the seed the queue is empty and the log
contains no warning entry at all. -/
theorem monitorStep_cex :
    ((∀ u ∈ twoIdenticalState.queue, u = str ("https://example.com/x")) ∧
     twoIdenticalState.queue ≠ [] ∧
     monitorStep twoIdenticalState = twoIdenticalState ∧
     (monitorStep twoIdenticalState).queue ≠ [] ∧
     LogType.warning ∉ (monitorStep twoIdenticalState).logs) ∧
    ((processQueueStep ⟨2, 20, false, 0, false, 1⟩ (str ("https://example.com"))
        ((startCrawling (str ("https://example.com"))).getD twoIdenticalState)
        (.ok selfLinkPage)).queue = [] ∧
     LogType.warning ∉
       (processQueueStep ⟨2, 20, false, 0, false, 1⟩ (str ("https://example.com"))
         ((startCrawling (str ("https://example.com"))).getD twoIdenticalState)
         (.ok selfLinkPage)).logs) := by
  refine ⟨⟨by decide, by decide, by decide, by decide, by decide⟩,
    by decide, by decide⟩

/-- Claim C6 (amended): loop suppression as the code implements it —
when the queue holds more than 5 entries all identical to its head it
is cleared and a warning is logged; when it holds more than 10 entries
of which fewer than half are unique it is trimmed to its unique entries
in first-occurrence order (or cleared, when the all-identical clearing
also fires) and a warning is logged; and a seed page linking to itself
via `href="/"` contributes no queue entries at all (such hrefs are
dropped by the extractor), so that scenario ends with an empty queue
and never triggers the suppression warning. -/
theorem monitorStep_amended :
    (∀ (st : CrawlState) (h : List Nat) (t : List (List Nat)),
      st.loading = true → st.queue = h :: t → 5 < st.queue.length →
      (∀ u ∈ st.queue, u = h) →
      (monitorStep st).queue = [] ∧
        LogType.warning ∈ (monitorStep st).logs) ∧
    (∀ (st : CrawlState) (h : List Nat) (t : List (List Nat)),
      st.loading = true → st.queue = h :: t →
      2 * (dedupF st.queue).length < st.queue.length → 10 < st.queue.length →
      ¬(5 < st.queue.length ∧ st.queue.all (fun u => u = h) = true) →
      (monitorStep st).queue = dedupF st.queue ∧
        LogType.warning ∈ (monitorStep st).logs) ∧
    (∀ (cfg : CrawlSettings) (baseUrl : List Nat) (n : Nat),
      extractLinks cfg ⟨List.replicate n (str ("/")), []⟩ baseUrl = []) := by
  have hmem_warn : ∀ l : List LogType, LogType.warning ∈ pushLog .warning l := by
    intro l
    simp [pushLog, List.take_succ_cons]
  refine ⟨?_, ?_, ?_⟩
  · intro st h t hl hq hlen hall
    rw [hq] at hlen
    have hallb : (h :: t).all (fun u => u = h) = true := by
      rw [List.all_eq_true]
      intro u hu
      simp only [decide_eq_true_eq]
      exact hall u (hq ▸ hu)
    unfold monitorStep
    rw [hl, hq]
    dsimp only
    rw [if_pos ⟨hlen, hallb⟩]
    exact ⟨rfl, hmem_warn _⟩
  · intro st h t hl hq hd h10 hall
    rw [hq] at hd h10 hall
    unfold monitorStep
    rw [hl, hq]
    dsimp only
    rw [if_neg hall]
    rw [if_pos ⟨hd, h10⟩]
    refine ⟨rfl, ?_⟩
    simp [pushLog, List.take_succ_cons]
  · intro cfg baseUrl n
    have hstep : ∀ acc, linkStep cfg baseUrl acc (str ("/")) = acc := by
      intro acc
      unfold linkStep
      rw [if_neg (by decide), if_pos (by decide)]
    show (List.foldl (linkStep cfg baseUrl) ([], [])
      (List.replicate n (str ("/")))).1 = []
    have hfold : ∀ (m : Nat) (acc : List (List Nat) × List (List Nat)),
        List.foldl (linkStep cfg baseUrl) acc (List.replicate m (str ("/")))
          = acc := by
      intro m
      induction m with
      | zero => intro acc; rfl
      | succ k ih =>
        intro acc
        rw [List.replicate_succ, List.foldl_cons, hstep]
        exact ih acc
    rw [hfold n ([], [])]

/-- Claim C6, witness: the amended suppression theorem applied to a
running session whose queue holds six identical entries (cleared, with
a warning) and to the twenty-fold `href="/"` self-link page (no links
extracted). -/
theorem monitorStep_amended_witness :
    ((monitorStep { twoIdenticalState with
        queue := List.replicate 6 (str ("https://example.com/x")) }).queue = []
      ∧ LogType.warning ∈ (monitorStep { twoIdenticalState with
        queue := List.replicate 6 (str ("https://example.com/x")) }).logs) ∧
    extractLinks ⟨2, 20, false, 0, false, 1⟩
      ⟨List.replicate 20 (str ("/")), []⟩ (str ("https://example.com")) = [] :=
  ⟨monitorStep_amended.1 { twoIdenticalState with
      queue := List.replicate 6 (str ("https://example.com/x")) }
    (str ("https://example.com/x"))
    (List.replicate 5 (str ("https://example.com/x")))
    (by decide) (by decide) (by decide) (by decide),
   monitorStep_amended.2.2 ⟨2, 20, false, 0, false, 1⟩
     (str ("https://example.com")) 20⟩

/-! ## Field-preservation lemmas for the crawl steps -/

theorem registerImages_fields (st : CrawlState) (cand : List ImageItem) :
    (registerImages st cand).pagesVisited = st.pagesVisited ∧
    (registerImages st cand).visited = st.visited ∧
    (registerImages st cand).fetched = st.fetched ∧
    (registerImages st cand).loading = st.loading ∧
    (registerImages st cand).isProcessing = st.isProcessing ∧
    (registerImages st cand).queue = st.queue :=
  ⟨rfl, rfl, rfl, rfl, rfl, rfl⟩

theorem registerImages_images (st : CrawlState) (cand : List ImageItem) :
    (registerImages st cand).images = st.images ++
      cand.filter (fun i => i.url ∉ st.images.map (fun j => j.url)) := rfl

/-- The post-fetch half of `crawlPage` never touches the visited set,
the page counter, the running flag, the processing flag or the fetch
trace, and it only appends to the image registry. -/
theorem crawlPagePost_fields (cfg : CrawlSettings) (st : CrawlState)
    (u : List Nat) (d : Nat) (res : FetchPage) :
    (crawlPagePost cfg st u d res).pagesVisited = st.pagesVisited ∧
    (crawlPagePost cfg st u d res).visited = st.visited ∧
    (crawlPagePost cfg st u d res).fetched = st.fetched ∧
    (crawlPagePost cfg st u d res).loading = st.loading ∧
    (crawlPagePost cfg st u d res).isProcessing = st.isProcessing ∧
    ∃ newImgs, (crawlPagePost cfg st u d res).images = st.images ++ newImgs := by
  cases res with
  | notOk => exact ⟨rfl, rfl, rfl, rfl, rfl, [], by simp [crawlPagePost]⟩
  | err => exact ⟨rfl, rfl, rfl, rfl, rfl, [], by simp [crawlPagePost]⟩
  | ok page =>
    unfold crawlPagePost
    dsimp only
    split
    · exact ⟨rfl, rfl, rfl, rfl, rfl, _, rfl⟩
    · split
      · exact ⟨rfl, rfl, rfl, rfl, rfl, _, rfl⟩
      · exact ⟨rfl, rfl, rfl, rfl, rfl, _, rfl⟩

/-- The pre-fetch half of `crawlPage` never touches the image registry,
the image counter, the queue or the processing flag. -/
theorem crawlPagePre_fields (cfg : CrawlSettings) (st : CrawlState)
    (u : List Nat) (d : Nat) :
    (crawlPagePre cfg st u d).1.images = st.images ∧
    (crawlPagePre cfg st u d).1.imagesFound = st.imagesFound ∧
    (crawlPagePre cfg st u d).1.queue = st.queue ∧
    (crawlPagePre cfg st u d).1.isProcessing = st.isProcessing := by
  unfold crawlPagePre
  dsimp only
  repeat' split
  all_goals exact ⟨rfl, rfl, rfl, rfl⟩

/-- Every `ImageItem` produced by `extractImagesFromHtml` carries the
extracted page as its `sourceUrl` and `retryCount = 0`,
`loadFailed = false`. -/
theorem extractImages_shape (cfg : CrawlSettings) (page : Page)
    (pageUrl : List Nat) :
    ∀ i ∈ extractImagesFromHtml cfg page pageUrl,
      i.sourceUrl = pageUrl ∧ i.retryCount = 0 ∧ i.loadFailed = false := by
  have hbuild : ∀ (idx : Nat) (tag : ImgTag) (i : ImageItem),
      i ∈ buildImage cfg pageUrl idx tag →
      i.sourceUrl = pageUrl ∧ i.retryCount = 0 ∧ i.loadFailed = false := by
    intro idx tag i hi
    unfold buildImage at hi
    split at hi
    · simp at hi
    · dsimp only at hi
      split at hi
      · simp at hi
      · split at hi
        · simp at hi
        · rw [List.mem_singleton] at hi
          subst hi
          exact ⟨rfl, rfl, rfl⟩
  have hfold : ∀ (tags : List ImgTag) (acc : List ImageItem × Nat),
      (∀ i ∈ acc.1, i.sourceUrl = pageUrl ∧ i.retryCount = 0 ∧
        i.loadFailed = false) →
      ∀ i ∈ (tags.foldl
        (fun acc tag => (acc.1 ++ buildImage cfg pageUrl acc.2 tag, acc.2 + 1))
        acc).1,
        i.sourceUrl = pageUrl ∧ i.retryCount = 0 ∧ i.loadFailed = false := by
    intro tags
    induction tags with
    | nil => intro acc hacc; exact hacc
    | cons tag rest ih =>
      intro acc hacc
      rw [List.foldl_cons]
      refine ih (acc.1 ++ buildImage cfg pageUrl acc.2 tag, acc.2 + 1) ?_
      intro i hi
      rcases List.mem_append.mp hi with hi | hi
      · exact hacc i hi
      · exact hbuild acc.2 tag i hi
  intro i hi
  exact hfold page.imgs ([], 0) (by intro i hi; simp at hi) i hi

/-- Membership in the post-fetch image registry: a record is either
retained from before, or it came out of this page's extraction and its
URL was not previously registered. -/
theorem crawlPagePost_images_mem (cfg : CrawlSettings) (st : CrawlState)
    (u : List Nat) (d : Nat) (res : FetchPage) (i : ImageItem)
    (hi : i ∈ (crawlPagePost cfg st u d res).images) :
    i ∈ st.images ∨
      (∃ page, res = FetchPage.ok page ∧ i ∈ extractImagesFromHtml cfg page u ∧
        i.url ∉ st.images.map (fun j => j.url)) := by
  cases res with
  | notOk => exact Or.inl hi
  | err => exact Or.inl hi
  | ok page =>
    unfold crawlPagePost at hi
    dsimp only at hi
    have hreg : ∀ l : List LogType,
        i ∈ (registerImages { st with logs := l }
          (extractImagesFromHtml cfg page u)).images →
        i ∈ st.images ∨
          (i ∈ extractImagesFromHtml cfg page u ∧
           i.url ∉ st.images.map (fun j => j.url)) := by
      intro l hmem
      rw [registerImages_images] at hmem
      rcases List.mem_append.mp hmem with hmem | hmem
      · exact Or.inl hmem
      · rw [List.mem_filter] at hmem
        refine Or.inr ⟨hmem.1, ?_⟩
        have := hmem.2
        simpa using this
    split at hi
    · rcases hreg _ hi with hl | hr
      · exact Or.inl hl
      · exact Or.inr ⟨page, rfl, hr.1, hr.2⟩
    · split at hi
      · rcases hreg _ hi with hl | hr
        · exact Or.inl hl
        · exact Or.inr ⟨page, rfl, hr.1, hr.2⟩
      · rcases hreg _ hi with hl | hr
        · exact Or.inl hl
        · exact Or.inr ⟨page, rfl, hr.1, hr.2⟩

/-! ## Concrete session fixtures -/

/-- The settings used by the concrete runs: depth 2, 20 pages, external
domains off, SVG off, one image retry. -/
def cfgA : CrawlSettings := ⟨2, 20, false, 0, false, 1⟩

/-- The seed URL of the concrete runs. -/
def seedA : List Nat := str ("https://example.com")

/-- The session state right after `startCrawling` on the seed. -/
def startA : CrawlState := (startCrawling seedA).getD twoIdenticalState

/-- A page that references the same image twice. -/
def dupImgPage : Page :=
  ⟨[], [⟨str ("/a.png"), none, none⟩, ⟨str ("/a.png"), none, none⟩]⟩

/-- A page that references `/a.png` once. -/
def pageE : Page := ⟨[], [⟨str ("/a.png"), none, none⟩]⟩

/-- The record the extractor builds for `/a.png` on the seed page. -/
def recE : ImageItem :=
  { url := str ("https://example.com/a.png"), filename := str ("a.png"),
    selected := true, sourceUrl := seedA, width := none, height := none,
    type := .png, loadFailed := false, retryCount := 0 }

/-- Claim C4, counterexample: a single page referencing the same image
URL twice produces two ImageRecords with the same URL in the registry —
`register` filters candidates only against records already present, not
against each other, so the dedup invariant fails within one page. -/
theorem imageDedup_cex :
    ((crawlPage cfgA startA seedA 1 (.ok dupImgPage)).images.map
        (fun i => i.url))
      = [str ("https://example.com/a.png"), str ("https://example.com/a.png")] ∧
    ¬ ((crawlPage cfgA startA seedA 1 (.ok dupImgPage)).images.map
        (fun i => i.url)).Nodup := by
  refine ⟨by decide, by decide⟩

/-- Claim C4 (amended): registration filters candidates against the
records already in the registry — every record a crawl step appends has
a URL not previously registered and carries the crawled page as its
`sourceUrl`, so when two different pages reference the same image URL
the registry keeps exactly one record, from whichever page registered
it first.  Duplicates inside a single page's candidate list, however,
are not collapsed (see the counterexample). -/
theorem imageDedup_amended :
    (∀ (st : CrawlState) (cand : List ImageItem),
      (registerImages st cand).images = st.images ++
        cand.filter (fun i => i.url ∉ st.images.map (fun j => j.url))) ∧
    (∀ (cfg : CrawlSettings) (st : CrawlState) (pageUrl : List Nat)
        (depth : Nat) (res : FetchPage) (i : ImageItem),
      i ∈ (crawlPage cfg st pageUrl depth res).images →
      i ∈ st.images ∨
        (i.sourceUrl = pageUrl ∧
         i.url ∉ st.images.map (fun j => j.url))) := by
  refine ⟨fun st cand => registerImages_images st cand, ?_⟩
  intro cfg st pageUrl depth res i hi
  unfold crawlPage at hi
  dsimp only at hi
  have hpreimg := (crawlPagePre_fields cfg st pageUrl depth).1
  split at hi
  · rcases crawlPagePost_images_mem cfg _ pageUrl depth res i hi with hl | hr
    · rw [hpreimg] at hl
      exact Or.inl hl
    · obtain ⟨page, _, hmem, hnot⟩ := hr
      rw [hpreimg] at hnot
      exact Or.inr ⟨(extractImages_shape cfg page pageUrl i hmem).1, hnot⟩
  · rw [hpreimg] at hi
    exact Or.inl hi

/-- Claim C4, witness: the amended theorem applied to the record built
for `/a.png` on the seed page of a fresh session — it is new to the
registry and its `sourceUrl` is the page that registered it. -/
theorem imageDedup_amended_witness :
    recE ∈ startA.images ∨
      (recE.sourceUrl = seedA ∧
       recE.url ∉ startA.images.map (fun j => j.url)) :=
  imageDedup_amended.2 cfgA startA seedA 1 (.ok pageE) recE (by decide)

/-! ## The visited-set / page-counter invariant (claim C2) -/

/-- The session invariant of claim C2: the visited set is duplicate
free, its size equals the page counter, and the counter never exceeds
the page bound. -/
def SessionInv (cfg : CrawlSettings) (st : CrawlState) : Prop :=
  st.visited.Nodup ∧ st.visited.length = st.pagesVisited ∧
    st.pagesVisited ≤ cfg.maxPages

theorem inv_start {cfg : CrawlSettings} {seed : List Nat} {st : CrawlState}
    (h : startCrawling seed = some st) : SessionInv cfg st := by
  unfold startCrawling at h
  split at h
  · exact absurd h (by simp)
  · split at h
    · exact absurd h (by simp)
    · rw [Option.some_inj] at h
      subst h
      exact ⟨List.nodup_nil, rfl, Nat.zero_le _⟩

theorem inv_crawlPagePre (cfg : CrawlSettings) (st : CrawlState)
    (u : List Nat) (d : Nat) (h : SessionInv cfg st) :
    SessionInv cfg (crawlPagePre cfg st u d).1 := by
  obtain ⟨h1, h2, h3⟩ := h
  unfold crawlPagePre
  dsimp only
  split
  · exact ⟨h1, h2, h3⟩
  · split
    · exact ⟨h1, h2, h3⟩
    · split
      · exact ⟨h1, h2, h3⟩
      · split
        · exact ⟨h1, h2, h3⟩
        · rename_i hnpu hmax hvis hdep
          refine ⟨?_, ?_, ?_⟩
          · rw [List.nodup_append]
            exact ⟨h1, List.nodup_singleton _, by simpa using hvis⟩
          · simp [h2]
          · show st.pagesVisited + 1 ≤ cfg.maxPages
            omega

theorem inv_crawlPage (cfg : CrawlSettings) (st : CrawlState) (u : List Nat)
    (d : Nat) (res : FetchPage) (h : SessionInv cfg st) :
    SessionInv cfg (crawlPage cfg st u d res) := by
  have hpre := inv_crawlPagePre cfg st u d h
  unfold crawlPage
  dsimp only
  split
  · obtain ⟨hp1, hp2, _⟩ :=
      crawlPagePost_fields cfg (crawlPagePre cfg st u d).1 u d res
    obtain ⟨a, b, c⟩ := hpre
    refine ⟨?_, ?_, ?_⟩
    · rw [hp2]; exact a
    · rw [hp2, hp1]; exact b
    · rw [hp1]; exact c
  · exact hpre

theorem inv_processQueueStep (cfg : CrawlSettings) (seed : List Nat)
    (st : CrawlState) (res : FetchPage) (h : SessionInv cfg st) :
    SessionInv cfg (processQueueStep cfg seed st res) := by
  obtain ⟨h1, h2, h3⟩ := h
  unfold processQueueStep
  dsimp only
  split
  · exact ⟨h1, h2, h3⟩
  · split
    · exact ⟨h1, h2, h3⟩
    · split
      · exact ⟨h1, h2, h3⟩
      · rename_i nextUrl rest heq
        split
        · exact ⟨h1, h2, h3⟩
        · split
          · exact ⟨h1, h2, h3⟩
          · rename_i depth hdep
            have hinv : SessionInv cfg
                { st with isProcessing := true, queue := rest,
                          logs := pushLog .info st.logs } := ⟨h1, h2, h3⟩
            obtain ⟨a, b, c⟩ := inv_crawlPage cfg _ nextUrl depth res hinv
            exact ⟨a, b, c⟩

theorem inv_monitorStep (cfg : CrawlSettings) (st : CrawlState)
    (h : SessionInv cfg st) : SessionInv cfg (monitorStep st) := by
  obtain ⟨h1, h2, h3⟩ := h
  unfold monitorStep
  dsimp only
  repeat' split
  all_goals exact ⟨h1, h2, h3⟩

theorem inv_completeStep (cfg : CrawlSettings) (st : CrawlState)
    (h : SessionInv cfg st) : SessionInv cfg (completeStep st) := by
  obtain ⟨h1, h2, h3⟩ := h
  unfold completeStep
  split
  · exact ⟨h1, h2, h3⟩
  · exact ⟨h1, h2, h3⟩

theorem inv_stopCrawling (cfg : CrawlSettings) (st : CrawlState)
    (h : SessionInv cfg st) : SessionInv cfg (stopCrawling st) := h

theorem inv_handleImageError (cfg : CrawlSettings) (st : CrawlState)
    (i : Nat) (h : SessionInv cfg st) :
    SessionInv cfg (handleImageError st i) := h

theorem inv_retryImage (cfg : CrawlSettings) (st : CrawlState) (i : Nat)
    (h : SessionInv cfg st) : SessionInv cfg (retryImage st i) := by
  obtain ⟨h1, h2, h3⟩ := h
  unfold retryImage
  split
  · exact ⟨h1, h2, h3⟩
  · exact ⟨h1, h2, h3⟩

/-- Claim C2: in every state a session can reach, the number of keys in
the visited set equals the `pagesVisited` counter and the counter never
exceeds `maxPages` — a page URL enters the visited set exactly when the
counter is incremented, and no increment happens at or beyond the
bound; the invariant also holds at the mid-fetch point, after the
pre-fetch half of `crawlPage` alone. -/
theorem visited_pagesVisited_invariant :
    (∀ (cfg : CrawlSettings) (seed : List Nat) (st : CrawlState),
      Reached cfg seed st →
      st.visited.Nodup ∧ st.visited.length = st.pagesVisited ∧
        st.pagesVisited ≤ cfg.maxPages) ∧
    (∀ (cfg : CrawlSettings) (st : CrawlState) (u : List Nat) (d : Nat),
      st.visited.Nodup ∧ st.visited.length = st.pagesVisited ∧
        st.pagesVisited ≤ cfg.maxPages →
      (crawlPagePre cfg st u d).1.visited.Nodup ∧
        (crawlPagePre cfg st u d).1.visited.length =
          (crawlPagePre cfg st u d).1.pagesVisited ∧
        (crawlPagePre cfg st u d).1.pagesVisited ≤ cfg.maxPages) := by
  constructor
  · intro cfg seed st h
    induction h with
    | start st0 h0 => exact inv_start h0
    | crawl pageUrl depth res h ih => exact inv_crawlPage cfg _ _ _ _ ih
    | dequeue res h ih => exact inv_processQueueStep cfg seed _ res ih
    | monitor h ih => exact inv_monitorStep cfg _ ih
    | complete h ih => exact inv_completeStep cfg _ ih
    | stop h ih => exact inv_stopCrawling cfg _ ih
    | imgError index h ih => exact inv_handleImageError cfg _ index ih
    | clickRetry filter index h hg ih => exact inv_retryImage cfg _ index ih
  · intro cfg st u d h
    exact inv_crawlPagePre cfg st u d h

/-- Claim C2, witness: the invariant theorem applied to the state
reached by starting a session and crawling the seed page — one page
visited, one visited key, within the 20-page bound. -/
theorem visited_pagesVisited_invariant_witness :
    (processQueueStep cfgA seedA startA (.ok pageE)).visited.Nodup ∧
    (processQueueStep cfgA seedA startA (.ok pageE)).visited.length =
      (processQueueStep cfgA seedA startA (.ok pageE)).pagesVisited ∧
    (processQueueStep cfgA seedA startA (.ok pageE)).pagesVisited ≤
      cfgA.maxPages :=
  visited_pagesVisited_invariant.1 cfgA seedA _
    (Reached.dequeue (.ok pageE) (Reached.start startA (by decide)))

/-! ## Dequeue-time depth (claim C3) -/

/-- A seed page linking to the three-segment path `/a/b/c`. -/
def pageDeep : Page := ⟨[str ("/a/b/c")], []⟩

/-- Claim C3, counterexample: depth is not enforced at enqueue.
Crawling the seed (depth 1, `maxDepth` 2) appends the link
`https://example.com/a/b/c` to the pending queue, and when that entry
is dequeued the ad hoc path-segment recomputation assigns it depth 4,
which exceeds `maxDepth = 2`; the entry is nonetheless dequeued (the
queue empties) — it is merely skipped afterwards, without a fetch, as
the unchanged fetch trace shows. -/
theorem dequeuedDepth_cex :
    (processQueueStep cfgA seedA startA (.ok pageDeep)).queue
      = [str ("https://example.com/a/b/c")] ∧
    computeDepth seedA (str ("https://example.com/a/b/c")) = some 4 ∧
    cfgA.maxDepth = 2 ∧
    (processQueueStep cfgA seedA
        (processQueueStep cfgA seedA startA (.ok pageDeep))
        (.ok pageDeep)).queue = [] ∧
    (processQueueStep cfgA seedA
        (processQueueStep cfgA seedA startA (.ok pageDeep))
        (.ok pageDeep)).fetched = [seedA] ∧
    (processQueueStep cfgA seedA
        (processQueueStep cfgA seedA startA (.ok pageDeep))
        (.ok pageDeep)).pagesVisited = 1 := by
  refine ⟨by decide, by decide, by decide, by decide, by decide, by decide⟩

theorem crawlPagePre_skip (cfg : CrawlSettings) (st : CrawlState)
    (u : List Nat) (d : Nat) (h : cfg.maxDepth < d) :
    (crawlPagePre cfg st u d).2 = false ∧
    (crawlPagePre cfg st u d).1.fetched = st.fetched ∧
    (crawlPagePre cfg st u d).1.visited = st.visited ∧
    (crawlPagePre cfg st u d).1.pagesVisited = st.pagesVisited ∧
    (crawlPagePre cfg st u d).1.images = st.images ∧
    (crawlPagePre cfg st u d).1.imagesFound = st.imagesFound ∧
    (crawlPagePre cfg st u d).1.queue = st.queue := by
  unfold crawlPagePre
  dsimp only
  split
  · exact ⟨rfl, rfl, rfl, rfl, rfl, rfl, rfl⟩
  · split
    · exact ⟨rfl, rfl, rfl, rfl, rfl, rfl, rfl⟩
    · split
      · exact ⟨rfl, rfl, rfl, rfl, rfl, rfl, rfl⟩
      · split
        · exact ⟨rfl, rfl, rfl, rfl, rfl, rfl, rfl⟩
        · rename_i hdep
          exact absurd (Or.inl h) hdep

/-- Claim C3 (amended): the depth of a dequeued entry is recomputed at
dequeue time from the path-segment difference against the seed and may
exceed `maxDepth` — such entries are appended and dequeued; what holds
instead is that `crawlPage` skips any entry whose assigned depth
exceeds `maxDepth` without fetching, visiting or counting it, so a
page is only ever fetched at depth at most `maxDepth`. -/
theorem dequeuedDepth_amended :
    (∀ (cfg : CrawlSettings) (st : CrawlState) (u : List Nat) (d : Nat)
        (res : FetchPage), cfg.maxDepth < d →
      (crawlPage cfg st u d res).fetched = st.fetched ∧
      (crawlPage cfg st u d res).visited = st.visited ∧
      (crawlPage cfg st u d res).pagesVisited = st.pagesVisited ∧
      (crawlPage cfg st u d res).images = st.images ∧
      (crawlPage cfg st u d res).imagesFound = st.imagesFound ∧
      (crawlPage cfg st u d res).queue = st.queue) ∧
    (∀ (cfg : CrawlSettings) (st : CrawlState) (u : List Nat) (d : Nat)
        (res : FetchPage),
      (crawlPage cfg st u d res).fetched ≠ st.fetched → d ≤ cfg.maxDepth) := by
  have hmain : ∀ (cfg : CrawlSettings) (st : CrawlState) (u : List Nat)
      (d : Nat) (res : FetchPage), cfg.maxDepth < d →
      (crawlPage cfg st u d res).fetched = st.fetched ∧
      (crawlPage cfg st u d res).visited = st.visited ∧
      (crawlPage cfg st u d res).pagesVisited = st.pagesVisited ∧
      (crawlPage cfg st u d res).images = st.images ∧
      (crawlPage cfg st u d res).imagesFound = st.imagesFound ∧
      (crawlPage cfg st u d res).queue = st.queue := by
    intro cfg st u d res h
    obtain ⟨hb, hf, hv, hp, hi, hif, hq⟩ := crawlPagePre_skip cfg st u d h
    unfold crawlPage
    dsimp only
    rw [hb]
    simp only [Bool.false_eq_true, if_false]
    exact ⟨hf, hv, hp, hi, hif, hq⟩
  refine ⟨hmain, ?_⟩
  intro cfg st u d res hne
  by_contra hcon
  push_neg at hcon
  exact hne (hmain cfg st u d res hcon).1

/-- Claim C3, witness: the amended theorem applied to a fresh session
and a dequeued entry assigned depth 3 with `maxDepth = 2` — the entry
is skipped and nothing is fetched. -/
theorem dequeuedDepth_amended_witness :
    (crawlPage cfgA startA seedA 3 (.ok pageE)).fetched = startA.fetched ∧
    (crawlPage cfgA startA seedA 3 (.ok pageE)).pagesVisited =
      startA.pagesVisited :=
  ⟨(dequeuedDepth_amended.1 cfgA startA seedA 3 (.ok pageE) (by decide)).1,
   (dequeuedDepth_amended.1 cfgA startA seedA 3 (.ok pageE) (by decide)).2.2.1⟩

/-! ## Stopping a session (claim C1) -/

/-- A page with one same-domain link and one image, fetched by the
page request that is in flight while `stop()` is clicked. -/
def pageInFlight : Page := ⟨[str ("/b")], [⟨str ("/a.png"), none, none⟩]⟩

/-- The mid-fetch state: the pre-fetch half of `crawlPage` has run on
the seed (visited marked, counter bumped, fetch issued). -/
def midFlightA : CrawlState := (crawlPagePre cfgA startA seedA 1).1

/-- Claim C1, counterexample: growth does not stop with `stop()` plus
the in-flight fetch.  Stop the session while the seed fetch is in
flight: `stopCrawling` clears the queue and the counters stand at
`imagesFound = 0`; yet when the in-flight fetch completes, its
post-fetch half (which never re-checks `loading`) registers the page's
image — `imagesFound` rises to 1 — and appends the page's links to the
queue that `stop()` had cleared. -/
theorem stop_halts_cex :
    (crawlPagePre cfgA startA seedA 1).2 = true ∧
    (stopCrawling midFlightA).loading = false ∧
    (stopCrawling midFlightA).queue = [] ∧
    (stopCrawling midFlightA).imagesFound = 0 ∧
    (crawlPagePost cfgA (stopCrawling midFlightA) seedA 1
        (.ok pageInFlight)).imagesFound = 1 ∧
    (crawlPagePost cfgA (stopCrawling midFlightA) seedA 1
        (.ok pageInFlight)).queue = [str ("https://example.com/b")] := by
  refine ⟨by decide, by decide, by decide, by decide, by decide, by decide⟩

theorem crawlPagePre_stopped (cfg : CrawlSettings) (st : CrawlState)
    (u : List Nat) (d : Nat) (h : st.loading = false) :
    (crawlPagePre cfg st u d).2 = false ∧
    (crawlPagePre cfg st u d).1.fetched = st.fetched ∧
    (crawlPagePre cfg st u d).1.pagesVisited = st.pagesVisited ∧
    (crawlPagePre cfg st u d).1.imagesFound = st.imagesFound ∧
    (crawlPagePre cfg st u d).1.images = st.images ∧
    (crawlPagePre cfg st u d).1.queue = st.queue ∧
    (crawlPagePre cfg st u d).1.visited = st.visited := by
  unfold crawlPagePre
  dsimp only
  split
  · exact ⟨rfl, rfl, rfl, rfl, rfl, rfl, rfl⟩
  · split
    · exact ⟨rfl, rfl, rfl, rfl, rfl, rfl, rfl⟩
    · split
      · exact ⟨rfl, rfl, rfl, rfl, rfl, rfl, rfl⟩
      · split
        · exact ⟨rfl, rfl, rfl, rfl, rfl, rfl, rfl⟩
        · rename_i hdep
          exact absurd (Or.inr h) hdep

theorem crawlPage_stopped (cfg : CrawlSettings) (st : CrawlState)
    (u : List Nat) (d : Nat) (res : FetchPage) (h : st.loading = false) :
    (crawlPage cfg st u d res).fetched = st.fetched ∧
    (crawlPage cfg st u d res).pagesVisited = st.pagesVisited ∧
    (crawlPage cfg st u d res).imagesFound = st.imagesFound ∧
    (crawlPage cfg st u d res).images = st.images ∧
    (crawlPage cfg st u d res).queue = st.queue ∧
    (crawlPage cfg st u d res).visited = st.visited := by
  obtain ⟨hb, h1, h2, h3, h4, h5, h6⟩ := crawlPagePre_stopped cfg st u d h
  unfold crawlPage
  dsimp only
  rw [hb]
  simp only [Bool.false_eq_true, if_false]
  exact ⟨h1, h2, h3, h4, h5, h6⟩

/-- Claim C1 (amended): `stop()` clears the pending queue, halts the
loop and retains every extracted record, and after it returns no
further page is fetched and `pagesVisited` no longer changes; but the
single in-flight page's post-fetch processing — which never re-checks
the running flag — may still register that page's images (growing
`imagesFound`) and append that page's links to the queue `stop()` had
just cleared.  Once that in-flight processing completes, every further
step of the stopped session leaves the counters, registry, queue,
visited set and fetch trace unchanged. -/
theorem stop_halts_amended :
    (∀ st : CrawlState,
      (stopCrawling st).queue = [] ∧ (stopCrawling st).loading = false ∧
      (stopCrawling st).images = st.images ∧
      (stopCrawling st).pagesVisited = st.pagesVisited ∧
      (stopCrawling st).imagesFound = st.imagesFound ∧
      (stopCrawling st).visited = st.visited ∧
      (stopCrawling st).fetched = st.fetched) ∧
    (∀ (cfg : CrawlSettings) (st : CrawlState) (u : List Nat) (d : Nat)
        (res : FetchPage),
      (crawlPagePost cfg st u d res).pagesVisited = st.pagesVisited ∧
      (crawlPagePost cfg st u d res).visited = st.visited ∧
      (crawlPagePost cfg st u d res).fetched = st.fetched ∧
      ∃ newImgs, (crawlPagePost cfg st u d res).images =
        st.images ++ newImgs) ∧
    (∀ (cfg : CrawlSettings) (seed : List Nat) (st : CrawlState)
        (res : FetchPage), st.loading = false →
      (processQueueStep cfg seed st res).pagesVisited = st.pagesVisited ∧
      (processQueueStep cfg seed st res).imagesFound = st.imagesFound ∧
      (processQueueStep cfg seed st res).images = st.images ∧
      (processQueueStep cfg seed st res).queue = st.queue ∧
      (processQueueStep cfg seed st res).visited = st.visited ∧
      (processQueueStep cfg seed st res).fetched = st.fetched) ∧
    (∀ st : CrawlState, st.loading = false → monitorStep st = st) ∧
    (∀ (cfg : CrawlSettings) (st : CrawlState) (u : List Nat) (d : Nat)
        (res : FetchPage), st.loading = false →
      (crawlPage cfg st u d res).fetched = st.fetched ∧
      (crawlPage cfg st u d res).pagesVisited = st.pagesVisited ∧
      (crawlPage cfg st u d res).imagesFound = st.imagesFound ∧
      (crawlPage cfg st u d res).images = st.images ∧
      (crawlPage cfg st u d res).queue = st.queue ∧
      (crawlPage cfg st u d res).visited = st.visited) := by
  refine ⟨?_, ?_, ?_, ?_, ?_⟩
  · intro st
    exact ⟨rfl, rfl, rfl, rfl, rfl, rfl, rfl⟩
  · intro cfg st u d res
    obtain ⟨h1, h2, h3, _, _, hex⟩ := crawlPagePost_fields cfg st u d res
    exact ⟨h1, h2, h3, hex⟩
  · intro cfg seed st res h
    unfold processQueueStep
    dsimp only
    split
    · exact ⟨rfl, rfl, rfl, rfl, rfl, rfl⟩
    · split
      · exact ⟨rfl, rfl, rfl, rfl, rfl, rfl⟩
      · rename_i hguard
        exact absurd (Or.inr (Or.inl h)) hguard
  · intro st h
    unfold monitorStep
    rw [h]
  · intro cfg st u d res h
    exact crawlPage_stopped cfg st u d res h

/-- Claim C1, witness: the amended theorem applied to a stopped
session — `processQueueStep` on the stopped state changes neither the
page counter nor the image counter nor the queue. -/
theorem stop_halts_amended_witness :
    (processQueueStep cfgA seedA (stopCrawling midFlightA)
        (.ok pageInFlight)).pagesVisited =
      (stopCrawling midFlightA).pagesVisited ∧
    (processQueueStep cfgA seedA (stopCrawling midFlightA)
        (.ok pageInFlight)).imagesFound =
      (stopCrawling midFlightA).imagesFound ∧
    (processQueueStep cfgA seedA (stopCrawling midFlightA)
        (.ok pageInFlight)).queue = (stopCrawling midFlightA).queue :=
  ⟨(stop_halts_amended.2.2.1 cfgA seedA (stopCrawling midFlightA)
      (.ok pageInFlight) (by decide)).1,
   (stop_halts_amended.2.2.1 cfgA seedA (stopCrawling midFlightA)
      (.ok pageInFlight) (by decide)).2.1,
   (stop_halts_amended.2.2.1 cfgA seedA (stopCrawling midFlightA)
      (.ok pageInFlight) (by decide)).2.2.2.1⟩

/-! ## The retry bound (claim C5) -/

/-- A page with one JPEG and one PNG image. -/
def pageTwoImgs : Page :=
  ⟨[], [⟨str ("/j.jpg"), none, none⟩, ⟨str ("/p.png"), none, none⟩]⟩

/-- The session after crawling the seed page with two images and both
images failing to load in the grid (no type filter active yet, so the
error indexes line up). -/
def bothFailedA : CrawlState :=
  handleImageError
    (handleImageError (crawlPage cfgA startA seedA 1 (.ok pageTwoImgs)) 0) 1

/-- The state after the first click on the Retry button at grid
position 0 while the PNG type filter is active: the button's guard
reads the PNG record (`filterImages` position 0), but `retryImage 0`
mutates the JPEG record (`images[0]`). -/
def afterClick1A : CrawlState := retryImage bothFailedA 0

/-- The state after the second such click. -/
def afterClick2A : CrawlState := retryImage afterClick1A 0

/-- Claim C5: the code violates the bound.  The grid renders
`filteredImages` but `retryImage(index)` indexes the unfiltered
`images` array, so with `maxImageRetries = 1` and the PNG type filter
active, the Retry button for the still-failed PNG record is offered
twice (its `retryCount` stays 0), while each click increments the JPEG
record at `images[0]` — whose `retryCount` reaches 2, exceeding
`maxImageRetries`.  This theorem evaluates the model at that failing
input. -/
theorem retryCount_bound_code_bug :
    cfgA.maxRetries = 1 ∧
    retryOffered cfgA bothFailedA (some .png) 0 = true ∧
    retryOffered cfgA afterClick1A (some .png) 0 = true ∧
    ((afterClick2A.images.get? 0).map (fun i => i.retryCount)) = some 2 ∧
    ((afterClick2A.images.get? 0).map (fun i => i.type)) =
      some ImageType.jpeg ∧
    ((afterClick2A.images.get? 1).map (fun i => i.retryCount)) = some 0 := by
  refine ⟨by decide, by decide, by decide, by decide, by decide, by decide⟩

end ImageScraper

